import Mathlib

/-!
Verification of the density-matrix simulator core (mindquantum, CPU density
matrix policy and `DensityMatrixState`).  The packed density matrix is a
lower-triangular, row-major buffer modelled as a total function `ℕ → ℂ`;
`IdxMap r c` is the linear offset of the stored entry `(r, c)` with `r ≥ c`.
Kernels are sequences of in-place multiplicative updates of single packed
entries, modelled as lists of `(offset, factor)` pairs applied left to right.
-/

namespace DMSim

/-- `IdxMap(r, c) = r*(r+1)/2 + c` (spec §4.A; `simulator/utils.hpp`,
declared for the packed lower-triangular storage; callers pass `r ≥ c`). -/
def IdxMap (r c : ℕ) : ℕ := r * (r + 1) / 2 + c

/-- Control mask: bitwise OR of `1 << c` over the control qubits.
Modelled from the spec: `SingleQubitGateMask` is not under `src/`;
spec §3 defines `ctrl_mask` as the OR of `1<<c` for every control qubit `c`. -/
def ctrlMask (ctrls : List ℕ) : ℕ := ctrls.foldl (fun a c => a ||| (1 <<< c)) 0

/-- The row/column base expansion `((k & obj_high_mask) << 1) + (k & obj_low_mask)`
of the kernels, written in `ℕ` arithmetic: `k & obj_low_mask = k % 2^q` and
`k & obj_high_mask = k - k % 2^q` for `obj_mask = 2^q`.
Modelled from the spec: spec §3 sets `obj_mask = 1<<q`,
`obj_low_mask = obj_mask − 1`, `obj_high_mask = ~obj_low_mask`. -/
def expandBase (q k : ℕ) : ℕ := 2 * (k - k % 2 ^ q) + k % 2 ^ q

/-- The multiplicative factors a Z-like kernel applies to a stored entry,
as functions of the gate's diagonal value `v`:
`kval ↦ v`, `kconj ↦ conj v`, `knorm ↦ std::norm(v) = v·conj v`,
`kconjconj ↦ conj (conj v)` (the factor landing on the mirrored packed slot
when `SelfMultiply` is called on an upper-triangle position). -/
inductive ZKind
  | kval
  | kconj
  | knorm
  | kconjconj
deriving DecidableEq

def zfac (v : ℂ) : ZKind → ℂ
  | .kval => v
  | .kconj => star v
  | .knorm => v * star v
  | .kconjconj => star (star v)

/-- `SelfMultiply(qs, row, col, conj v)` as an update record.
Modelled from the spec: `SelfMultiply` is not under `src/`; spec §3 states
"for r < c the caller must read ρ[c,r] and conjugate", so multiplying the
logical entry `(row, col)` by `conj v` multiplies the stored entry
`IdxMap(row, col)` by `conj v` when `row ≥ col`, and the stored entry
`IdxMap(col, row)` by `conj (conj v)` otherwise. -/
def selfMultiplyUpd (row col : ℕ) : ℕ × ZKind :=
  if col ≤ row then (IdxMap row col, ZKind.kconj) else (IdxMap col row, ZKind.kconjconj)

/-- Apply a list of single-entry multiplicative updates, left to right:
`qs[i] *= f k` for each `(i, k)` in the list. -/
def applyUpds {α : Type} (f : α → ℂ) (L : List (ℕ × α)) (qs : ℕ → ℂ) : ℕ → ℂ :=
  L.foldl (fun s u => Function.update s u.1 (s u.1 * f u.2)) qs

/-- The total factor the update list applies at offset `i`. -/
def updProd {α : Type} (f : α → ℂ) (L : List (ℕ × α)) (i : ℕ) : ℂ :=
  (L.map (fun u => if u.1 = i then f u.2 else 1)).prod

/-- The update sequence of `CPUDensityMatrixPolicyBase::ApplyZLike`
(`cpu_densitymatrix_policy_zlike.cpp` lines 38–87), in the exact loop order
of the source.  Uncontrolled branch: `k ∈ [0, dim/2)`, `l ∈ [0, k]`, three
updates per block.  Controlled branch: `l ∈ [0, k)`; blocks where neither
base satisfies the control are skipped; then the per-block updates depend on
which of the row/column base satisfies the control; finally the source's
"diagonal case" lines 80–83 run inside the same inner loop. -/
def zlikeUpds (objs ctrls : List ℕ) (dim : ℕ) : List (ℕ × ZKind) :=
  let q := objs.headD 0
  let om := 1 <<< q
  let cm := ctrlMask ctrls
  if cm = 0 then
    (List.range (dim / 2)).flatMap (fun k =>
      let r0 := expandBase q k
      let r1 := r0 ||| om
      (List.range (k + 1)).flatMap (fun l =>
        let c0 := expandBase q l
        let c1 := c0 ||| om
        [(IdxMap r1 c1, ZKind.knorm), (IdxMap r1 c0, ZKind.kval), selfMultiplyUpd r0 c1]))
  else
    (List.range (dim / 2)).flatMap (fun k =>
      let r0 := expandBase q k
      let r1 := r0 ||| om
      (List.range k).flatMap (fun l =>
        let c0 := expandBase q l
        if r0 &&& cm ≠ cm ∧ c0 &&& cm ≠ cm then []
        else
          let c1 := c0 ||| om
          (if r0 &&& cm = cm then
            (if c0 &&& cm = cm then
              [(IdxMap r1 c1, ZKind.knorm), (IdxMap r1 c0, ZKind.kval), selfMultiplyUpd r0 c1]
            else
              [(IdxMap r1 c1, ZKind.kval), (IdxMap r1 c0, ZKind.kval)])
          else
            [(IdxMap r1 c1, ZKind.kconj), selfMultiplyUpd r0 c1])
          ++ (if r0 &&& cm = cm then [(IdxMap r1 r0, ZKind.kval), (IdxMap r1 r1, ZKind.knorm)]
              else [])))

/-- `ApplyZLike(qs, objs, ctrls, val, dim)`: run the update sequence on the
packed buffer (`cpu_densitymatrix_policy_zlike.cpp` lines 38–87). -/
def ApplyZLike (qs : ℕ → ℂ) (objs ctrls : List ℕ) (val : ℂ) (dim : ℕ) : ℕ → ℂ :=
  applyUpds (zfac val) (zlikeUpds objs ctrls dim) qs

/-- `ApplyZ` = `ApplyZLike` with `val = -1` (line 89–91). -/
def ApplyZ (qs : ℕ → ℂ) (objs ctrls : List ℕ) (dim : ℕ) : ℕ → ℂ :=
  ApplyZLike qs objs ctrls (-1) dim

/-- `ApplySGate` = `ApplyZLike` with `val = i` (line 93–95). -/
def ApplySGate (qs : ℕ → ℂ) (objs ctrls : List ℕ) (dim : ℕ) : ℕ → ℂ :=
  ApplyZLike qs objs ctrls Complex.I dim

/-- `ApplySdag` = `ApplyZLike` with `val = -i` (line 97–99). -/
def ApplySdag (qs : ℕ → ℂ) (objs ctrls : List ℕ) (dim : ℕ) : ℕ → ℂ :=
  ApplyZLike qs objs ctrls (-Complex.I) dim

/-- `ApplyT` = `ApplyZLike` with `val = (1 + i)/sqrt 2` (line 101–103). -/
noncomputable def ApplyT (qs : ℕ → ℂ) (objs ctrls : List ℕ) (dim : ℕ) : ℕ → ℂ :=
  ApplyZLike qs objs ctrls ((1 + Complex.I) / ((Real.sqrt 2 : ℝ) : ℂ)) dim

/-- `ApplyTdag` = `ApplyZLike` with `val = (1 - i)/sqrt 2` (line 105–107). -/
noncomputable def ApplyTdag (qs : ℕ → ℂ) (objs ctrls : List ℕ) (dim : ℕ) : ℕ → ℂ :=
  ApplyZLike qs objs ctrls ((1 - Complex.I) / ((Real.sqrt 2 : ℝ) : ℂ)) dim

/-- `ApplyPS` with `diff == false`: `ApplyZLike` with
`val = cos θ + i sin θ` (lines 109–112). -/
noncomputable def ApplyPSnodiff (qs : ℕ → ℂ) (objs ctrls : List ℕ) (t : ℝ) (dim : ℕ) : ℕ → ℂ :=
  ApplyZLike qs objs ctrls (⟨Real.cos t, Real.sin t⟩ : ℂ) dim

/-- `DiagonalConditionalCollect(qs, mask, condi, true, dim)`.
Modelled from the spec: the kernel is not under `src/`; spec §8 glossary
("diagonal conditional collect: sum the diagonal entries of ρ matching a
bitmask predicate") and §4.B (measurement marginal `p₁`). -/
def DiagonalConditionalCollect (qs : ℕ → ℂ) (mask condi : ℕ) (_onlyDiag : Bool) (dim : ℕ) : ℝ :=
  ((List.range dim).map (fun r => if r &&& mask = condi then (qs (IdxMap r r)).re else 0)).sum

/-- The update sequence of `ConditionalMul` over the packed triangle:
every stored entry `(r, c)` with `c ≤ r < dim` is multiplied by `succ_coeff`
when both its row and column match the condition and by `fail_coeff` otherwise.
Modelled from the spec: the kernel is not under `src/`; spec §4.B
("scale ρ by 1/p_b on the surviving block and zero the complementary block …
a single conditional-multiply kernel over the packed triangle"). -/
def condMulUpds (mask condi : ℕ) (succ fail : ℂ) (dim : ℕ) : List (ℕ × ℂ) :=
  (List.range dim).flatMap (fun r =>
    (List.range (r + 1)).map (fun c =>
      (IdxMap r c, if r &&& mask = condi ∧ c &&& mask = condi then succ else fail)))

/-- `ConditionalMul(src, des, mask, condi, succ_coeff, fail_coeff, dim)` with
`des = src` (the in-place use of `ApplyMeasure`). -/
def ConditionalMul (src : ℕ → ℂ) (mask condi : ℕ) (succ fail : ℂ) (dim : ℕ) : ℕ → ℂ :=
  applyUpds id (condMulUpds mask condi succ fail dim) src

/-- The state container `DensityMatrixState` (`densitymatrix_state.tpp`).
`qs` is the packed buffer, `rng` the stream of draws of the seeded engine
`rng_` with `rngIdx` the number of draws already consumed; re-seeding from
the stored seed restarts the stream. -/
structure DMState where
  qs : ℕ → ℂ
  rng : ℕ → ℝ
  rngIdx : ℕ
  n_qubits : ℕ
  dim : ℕ

/-- The copy constructor (lines 61–70): deep-copies the buffer and re-seeds
the engine from the stored seed, i.e. restarts the draw stream. -/
def copyState (st : DMState) : DMState := { st with rngIdx := 0 }

/-- `InitState(dim)`: packed `|0…0⟩⟨0…0|`.  Modelled from the spec:
`InitState` is not under `src/`; spec §3 lifecycle
("created with (n, seed) → ρ = |0…0⟩⟨0…0|"). -/
def initQs (_dim : ℕ) : ℕ → ℂ := fun i => if i = 0 then 1 else 0

/-- `ParameterResolver` as used by the gate records: a constant part, the
`data_` coefficient map and the `no_grad_parameters_` name set.
Modelled from the spec §6 ("Combination(binding) → { const_value,
coefficients_by_name }, GetRequiresGradParameters() → name set,
data_[name] → coefficient"). -/
structure PRes where
  const_ : ℝ
  data_ : List (String × ℝ)
  no_grad_parameters_ : List String

/-- `params_.Combination(pr).const_value`: the linear combination of the
binding `pr` with the gate's coefficients plus the constant part.
Modelled from the spec §9 ("Evaluating a symbolic expression against a
binding is a linear combination yielding a real"). -/
def combination (p : PRes) (pr : String → ℝ) : ℝ :=
  p.const_ + (p.data_.map (fun nc => nc.2 * pr nc.1)).sum

/-- `GetRequiresGradParameters()`: names of `data_` not in
`no_grad_parameters_`. -/
def requiresGrad (p : PRes) : List String :=
  (p.data_.map Prod.fst).filter (fun n => !(p.no_grad_parameters_.contains n))

/-- The gate record (`BasicGate`), restricted to the fields the
density-matrix state reads. -/
structure BasicGate where
  name : String
  obj_qubits : List ℕ := []
  ctrl_qubits : List ℕ := []
  is_measure : Bool := false
  is_channel : Bool := false
  daggered : Bool := false
  parameterized : Bool := false
  applied_value : ℝ := 0
  params : PRes := ⟨0, [], []⟩
  damping_coeff : ℝ := 0
  probs : List ℝ := []
  kraus_operator_set : List (List ℂ) := []

def defaultGate : BasicGate := { name := "null" }

/-- Gate identifiers.  Modelled from the spec §6 (closed identifier set
{I, X, Y, Z, H, S, T, SWAP, ISWAP, RX, RY, RZ, Rxx, Ryy, Rzz, PS, CNOT,
Measure, cAD, cPD, cPL, hcAD, Kraus}); only distinctness of the strings
matters to the dispatcher. -/
def gI : String := "I"

def gX : String := "X"

def gY : String := "Y"

def gZ : String := "Z"

def gH : String := "H"

def gS : String := "S"

def gT : String := "T"

def gSWAP : String := "SWAP"

def gISWAP : String := "ISWAP"

def gCNOT : String := "CNOT"

def gRX : String := "RX"

def gRY : String := "RY"

def gRZ : String := "RZ"

def gXX : String := "Rxx"

def gYY : String := "Ryy"

def gZZ : String := "Rzz"

def gPS : String := "PS"

def cAD : String := "cAD"

def cPD : String := "cPD"

def cPL : String := "cPL"

def hcAD : String := "hcAD"

/-- The policy kernels the state container dispatches to
(`qs_policy_t` of `DensityMatrixState`), kept abstract: the claims about the
container and the gradient engine hold for every kernel implementation.
`Ham` is the Hamiltonian representation (`ham.ham_`). -/
structure Policy (Ham : Type) where
  applyX : (ℕ → ℂ) → List ℕ → List ℕ → ℕ → (ℕ → ℂ)
  applyY : (ℕ → ℂ) → List ℕ → List ℕ → ℕ → (ℕ → ℂ)
  applyZ : (ℕ → ℂ) → List ℕ → List ℕ → ℕ → (ℕ → ℂ)
  applyH : (ℕ → ℂ) → List ℕ → List ℕ → ℕ → (ℕ → ℂ)
  applySGate : (ℕ → ℂ) → List ℕ → List ℕ → ℕ → (ℕ → ℂ)
  applySdag : (ℕ → ℂ) → List ℕ → List ℕ → ℕ → (ℕ → ℂ)
  applyT : (ℕ → ℂ) → List ℕ → List ℕ → ℕ → (ℕ → ℂ)
  applyTdag : (ℕ → ℂ) → List ℕ → List ℕ → ℕ → (ℕ → ℂ)
  applySWAP : (ℕ → ℂ) → List ℕ → List ℕ → ℕ → (ℕ → ℂ)
  applyISWAP : (ℕ → ℂ) → List ℕ → List ℕ → ℕ → (ℕ → ℂ)
  applyRX : (ℕ → ℂ) → List ℕ → List ℕ → ℝ → ℕ → Bool → (ℕ → ℂ)
  applyRY : (ℕ → ℂ) → List ℕ → List ℕ → ℝ → ℕ → Bool → (ℕ → ℂ)
  applyRZ : (ℕ → ℂ) → List ℕ → List ℕ → ℝ → ℕ → Bool → (ℕ → ℂ)
  applyXX : (ℕ → ℂ) → List ℕ → List ℕ → ℝ → ℕ → Bool → (ℕ → ℂ)
  applyYY : (ℕ → ℂ) → List ℕ → List ℕ → ℝ → ℕ → Bool → (ℕ → ℂ)
  applyZZ : (ℕ → ℂ) → List ℕ → List ℕ → ℝ → ℕ → Bool → (ℕ → ℂ)
  applyPS : (ℕ → ℂ) → List ℕ → List ℕ → ℝ → ℕ → Bool → (ℕ → ℂ)
  applyAmplitudeDamping : (ℕ → ℂ) → List ℕ → ℝ → ℕ → (ℕ → ℂ)
  applyPhaseDamping : (ℕ → ℂ) → List ℕ → ℝ → ℕ → (ℕ → ℂ)
  applyHermitianAmplitudeDamping : (ℕ → ℂ) → List ℕ → ℝ → ℕ → (ℕ → ℂ)
  applyPauli : (ℕ → ℂ) → List ℕ → List ℝ → ℕ → (ℕ → ℂ)
  applyKraus : (ℕ → ℂ) → List ℕ → List (List ℂ) → ℕ → (ℕ → ℂ)
  getExpectation : (ℕ → ℂ) → Ham → ℕ → ℂ
  hamiltonianMatrix : Ham → ℕ → (ℕ → ℂ)
  expectDiffRX : (ℕ → ℂ) → (ℕ → ℂ) → List ℕ → List ℕ → ℕ → ℂ
  expectDiffRY : (ℕ → ℂ) → (ℕ → ℂ) → List ℕ → List ℕ → ℕ → ℂ
  expectDiffRZ : (ℕ → ℂ) → (ℕ → ℂ) → List ℕ → List ℕ → ℕ → ℂ
  expectDiffXX : (ℕ → ℂ) → (ℕ → ℂ) → List ℕ → List ℕ → ℕ → ℂ
  expectDiffYY : (ℕ → ℂ) → (ℕ → ℂ) → List ℕ → List ℕ → ℕ → ℂ
  expectDiffZZ : (ℕ → ℂ) → (ℕ → ℂ) → List ℕ → List ℕ → ℕ → ℂ
  expectDiffPS : (ℕ → ℂ) → (ℕ → ℂ) → List ℕ → List ℕ → ℕ → ℂ

open scoped Classical

/-- `DensityMatrixState::ApplyMeasure` (`densitymatrix_state.tpp`
lines 258–267): collect `p₁` on the diagonal, draw `u = rng_()`, build the
collapse mask, and conditionally rescale/zero the packed triangle. -/
noncomputable def ApplyMeasure (st : DMState) (g : BasicGate) : DMState × ℕ :=
  let one_mask := 1 <<< g.obj_qubits.headD 0
  let one_amp := DiagonalConditionalCollect st.qs one_mask one_mask true st.dim
  let u := st.rng st.rngIdx
  let collapse_mask := (if u < one_amp then 1 else 0) <<< g.obj_qubits.headD 0
  let norm_fact : ℂ := if collapse_mask = 0 then ((1 / (1 - one_amp) : ℝ) : ℂ)
                       else ((1 / one_amp : ℝ) : ℂ)
  let qs2 := ConditionalMul st.qs one_mask collapse_mask norm_fact 0 st.dim
  ({ st with qs := qs2, rngIdx := st.rngIdx + 1 }, if collapse_mask ≠ 0 then 1 else 0)

/-- `DensityMatrixState::ApplyChannel` (lines 236–251). -/
def ApplyChannel {Ham : Type} (P : Policy Ham) (st : DMState) (g : BasicGate) :
    Except String DMState :=
  if g.name = cAD then
    .ok { st with qs := P.applyAmplitudeDamping st.qs g.obj_qubits g.damping_coeff st.dim }
  else if g.name = cPD then
    .ok { st with qs := P.applyPhaseDamping st.qs g.obj_qubits g.damping_coeff st.dim }
  else if g.name = cPL then
    .ok { st with qs := P.applyPauli st.qs g.obj_qubits g.probs st.dim }
  else if g.kraus_operator_set.length ≠ 0 then
    .ok { st with qs := P.applyKraus st.qs g.obj_qubits g.kraus_operator_set st.dim }
  else if g.name = hcAD then
    .ok { st with qs := P.applyHermitianAmplitudeDamping st.qs g.obj_qubits g.damping_coeff st.dim }
  else .error "This noise channel not implemented."

/-- `DensityMatrixState::ApplyGate` (lines 137–234): the dispatcher.
Returns the mutated state together with the source's return value
(`2` means "no measurement outcome"). -/
noncomputable def ApplyGate {Ham : Type} (P : Policy Ham) (st : DMState) (g : BasicGate)
    (pr : String → ℝ) (diff : Bool) : Except String (DMState × ℕ) :=
  let name := g.name
  if name = gI then .ok (st, 2)
  else if name = gX then
    .ok ({ st with qs := P.applyX st.qs g.obj_qubits g.ctrl_qubits st.dim }, 2)
  else if name = gCNOT then
    let objq := [g.obj_qubits.headD 0]
    let ctrlq := g.ctrl_qubits ++ g.obj_qubits.drop 1
    .ok ({ st with qs := P.applyX st.qs objq ctrlq st.dim }, 2)
  else if name = gY then
    .ok ({ st with qs := P.applyY st.qs g.obj_qubits g.ctrl_qubits st.dim }, 2)
  else if name = gZ then
    .ok ({ st with qs := P.applyZ st.qs g.obj_qubits g.ctrl_qubits st.dim }, 2)
  else if name = gH then
    .ok ({ st with qs := P.applyH st.qs g.obj_qubits g.ctrl_qubits st.dim }, 2)
  else if name = gS then
    let k := if g.daggered then P.applySdag else P.applySGate
    .ok ({ st with qs := k st.qs g.obj_qubits g.ctrl_qubits st.dim }, 2)
  else if name = gT then
    let k := if g.daggered then P.applyTdag else P.applyT
    .ok ({ st with qs := k st.qs g.obj_qubits g.ctrl_qubits st.dim }, 2)
  else if name = gSWAP then
    .ok ({ st with qs := P.applySWAP st.qs g.obj_qubits g.ctrl_qubits st.dim }, 2)
  else if name = gISWAP then
    .ok ({ st with qs := P.applyISWAP st.qs g.obj_qubits g.ctrl_qubits st.dim }, 2)
  else if name = gRX then
    let val := if ¬g.parameterized then g.applied_value else combination g.params pr
    let d := if ¬g.parameterized then false else diff
    .ok ({ st with qs := P.applyRX st.qs g.obj_qubits g.ctrl_qubits val st.dim d }, 2)
  else if name = gRY then
    let val := if ¬g.parameterized then g.applied_value else combination g.params pr
    let d := if ¬g.parameterized then false else diff
    .ok ({ st with qs := P.applyRY st.qs g.obj_qubits g.ctrl_qubits val st.dim d }, 2)
  else if name = gRZ then
    let val := if ¬g.parameterized then g.applied_value else combination g.params pr
    let d := if ¬g.parameterized then false else diff
    .ok ({ st with qs := P.applyRZ st.qs g.obj_qubits g.ctrl_qubits val st.dim d }, 2)
  else if name = gXX then
    let val := if ¬g.parameterized then g.applied_value else combination g.params pr
    let d := if ¬g.parameterized then false else diff
    .ok ({ st with qs := P.applyXX st.qs g.obj_qubits g.ctrl_qubits val st.dim d }, 2)
  else if name = gZZ then
    let val := if ¬g.parameterized then g.applied_value else combination g.params pr
    let d := if ¬g.parameterized then false else diff
    .ok ({ st with qs := P.applyZZ st.qs g.obj_qubits g.ctrl_qubits val st.dim d }, 2)
  else if name = gYY then
    let val := if ¬g.parameterized then g.applied_value else combination g.params pr
    let d := if ¬g.parameterized then false else diff
    .ok ({ st with qs := P.applyYY st.qs g.obj_qubits g.ctrl_qubits val st.dim d }, 2)
  else if name = gPS then
    let val := if ¬g.parameterized then g.applied_value else combination g.params pr
    let d := if ¬g.parameterized then false else diff
    .ok ({ st with qs := P.applyPS st.qs g.obj_qubits g.ctrl_qubits val st.dim d }, 2)
  else if g.is_measure then .ok (ApplyMeasure st g)
  else if g.is_channel then
    match ApplyChannel P st g with
    | .error e => .error e
    | .ok st2 => .ok (st2, 2)
  else .error ("gate " ++ name ++ " not implement.")

/-- `DensityMatrixState::ExpectDiffGate` (lines 269–297). -/
def ExpectDiffGate {Ham : Type} (P : Policy Ham) (dm hm : ℕ → ℂ) (g : BasicGate) (dim : ℕ) :
    Except String ℂ :=
  if g.name = gRX then .ok (P.expectDiffRX dm hm g.obj_qubits g.ctrl_qubits dim)
  else if g.name = gRY then .ok (P.expectDiffRY dm hm g.obj_qubits g.ctrl_qubits dim)
  else if g.name = gRZ then .ok (P.expectDiffRZ dm hm g.obj_qubits g.ctrl_qubits dim)
  else if g.name = gXX then .ok (P.expectDiffXX dm hm g.obj_qubits g.ctrl_qubits dim)
  else if g.name = gZZ then .ok (P.expectDiffZZ dm hm g.obj_qubits g.ctrl_qubits dim)
  else if g.name = gYY then .ok (P.expectDiffYY dm hm g.obj_qubits g.ctrl_qubits dim)
  else if g.name = gPS then .ok (P.expectDiffPS dm hm g.obj_qubits g.ctrl_qubits dim)
  else .error ("gate " ++ g.name ++ " not implement.")

/-- Loop body of `DensityMatrixState::ApplyCircuit` (lines 299–310):
measurement outcomes are recorded under the gate name (latest write wins;
the record list is consulted with `List.lookup`, so prepending models the
map's overwriting `result[g->name_] = …`). -/
noncomputable def ApplyCircuitGo {Ham : Type} (P : Policy Ham) (pr : String → ℝ) :
    List BasicGate → List (String × ℕ) → DMState →
    Except String (List (String × ℕ) × DMState)
  | [], m, st => .ok (m, st)
  | g :: gs, m, st =>
    if g.is_measure then
      let r := ApplyMeasure st g
      ApplyCircuitGo P pr gs ((g.name, r.2) :: m) r.1
    else
      match ApplyGate P st g pr false with
      | .error e => .error e
      | .ok (st2, _) => ApplyCircuitGo P pr gs m st2

/-- `DensityMatrixState::ApplyCircuit` (lines 299–310). -/
noncomputable def ApplyCircuit {Ham : Type} (P : Policy Ham) (pr : String → ℝ)
    (circ : List BasicGate) (st : DMState) :
    Except String (List (String × ℕ) × DMState) :=
  ApplyCircuitGo P pr circ [] st

/-- The inner accumulation loop of `GetExpectationWithReversibleGradOneOne`
(lines 341–343): `f_and_g[1 + p_map.at(it)] += 2 * Re(gi) * -data_.at(it)`
over the requires-grad parameter names (`p_map.at` raises when the name is
absent). -/
def gradAccumNeg (pmap : String → Option ℕ) (gi : ℂ) (p : PRes) :
    List String → (ℕ → ℂ) → Except String (ℕ → ℂ)
  | [], fg => .ok fg
  | n :: ns, fg =>
    match pmap n with
    | none => .error "map::at"
    | some idx =>
      gradAccumNeg pmap gi p ns
        (Function.update fg (1 + idx)
          (fg (1 + idx) + ((2 * gi.re * (-((p.data_.lookup n).getD 0)) : ℝ) : ℂ)))

/-- The inner accumulation loop of `GetExpectationWithNoiseGradOneOne`
(lines 484–486): same as `gradAccumNeg` with the `+` sign on the
coefficient. -/
def gradAccumPos (pmap : String → Option ℕ) (gi : ℂ) (p : PRes) :
    List String → (ℕ → ℂ) → Except String (ℕ → ℂ)
  | [], fg => .ok fg
  | n :: ns, fg =>
    match pmap n with
    | none => .error "map::at"
    | some idx =>
      gradAccumPos pmap gi p ns
        (Function.update fg (1 + idx)
          (fg (1 + idx) + ((2 * gi.re * ((p.data_.lookup n).getD 0) : ℝ) : ℂ)))

/-- `pr.SetItems(names, values)`. Modelled from the spec §9 (immutable
name → real mapping updated per name). -/
def setItems (pr : String → ℝ) (names : List String) (vals : List ℝ) : String → ℝ :=
  (names.zip vals).foldl (fun f nv => Function.update f nv.1 nv.2) pr

/-- The `p_map` construction of the gradient entry points
(lines 322–328 and 418–424): encoder names first, ansatz names second,
later duplicates overwriting. -/
def buildPMap (enc ans : List String) : String → Option ℕ :=
  let f0 : String → Option ℕ := fun _ => none
  let f1 : String → Option ℕ :=
    enc.enum.foldl (fun f p => Function.update f p.2 (some p.1)) f0
  ans.enum.foldl (fun f p => Function.update f p.2 (some (p.1 + enc.length))) f1

/-- `derived_t sim_ham{ham_matrix, n_qubits, seed}` (constructor lines
54–59): owns the materialized Hamiltonian matrix, `dim = 1 << n_qubits`,
fresh engine from the same seed. -/
def hamSidecar {Ham : Type} (P : Policy Ham) (ham : Ham) (self : DMState) : DMState :=
  ⟨P.hamiltonianMatrix ham self.dim, self.rng, 0, self.n_qubits, 2 ^ self.n_qubits⟩

/-- The adjoint-circuit walk of `GetExpectationWithReversibleGradOneOne`
(lines 338–347): for each gate of `herm_circ`, read the derivative when the
gate has a gradient-requiring parameter, accumulate with the `-` sign, then
step both sidecars with the gate. -/
noncomputable def revWalk {Ham : Type} (P : Policy Ham) (pr : String → ℝ)
    (pmap : String → Option ℕ) (dim : ℕ) :
    (ℕ → ℂ) → DMState → DMState → List BasicGate → Except String (ℕ → ℂ)
  | fg, _, _, [] => .ok fg
  | fg, sq, sh, g :: gs =>
    let step : Except String (ℕ → ℂ) :=
      if g.params.data_.length ≠ g.params.no_grad_parameters_.length then
        match ExpectDiffGate P sq.qs sh.qs g dim with
        | .error e => .error e
        | .ok gi => gradAccumNeg pmap gi g.params (requiresGrad g.params) fg
      else .ok fg
    match step with
    | .error e => .error e
    | .ok fg2 =>
      match ApplyGate P sh g pr false with
      | .error e => .error e
      | .ok (sh2, _) =>
        match ApplyGate P sq g pr false with
        | .error e => .error e
        | .ok (sq2, _) => revWalk P pr pmap dim fg2 sq2 sh2 gs

/-- `DensityMatrixState::GetExpectationWithReversibleGradOneOne`
(lines 317–349). -/
noncomputable def GetExpectationWithReversibleGradOneOne {Ham : Type} (P : Policy Ham)
    (ham : Ham) (circ herm_circ : List BasicGate) (enc_data : List (List ℝ))
    (ans_data : List ℝ) (enc_name ans_name : List String) (self : DMState) :
    Except String (ℕ → ℂ) :=
  let pmap := buildPMap enc_name ans_name
  let pr := setItems (setItems (fun _ => 0) enc_name (enc_data.headD [])) ans_name ans_data
  match ApplyCircuit P pr circ (copyState self) with
  | .error e => .error e
  | .ok (_, simq) =>
    let fg1 := Function.update (fun _ => (0 : ℂ)) 0 (P.getExpectation simq.qs ham self.dim)
    revWalk P pr pmap self.dim fg1 simq (hamSidecar P ham self) herm_circ

/-- The re-evolution `for (j = 0; j <= n; j++) sim_qs.ApplyGate(circ[j], pr)`
of the noise-mode gradient (lines 480–482 and 534–536). -/
noncomputable def evolveUpTo {Ham : Type} (P : Policy Ham) (pr : String → ℝ)
    (circ : List BasicGate) : ℕ → DMState → Except String DMState
  | 0, s =>
    match ApplyGate P s (circ.getD 0 defaultGate) pr false with
    | .error e => .error e
    | .ok (s2, _) => .ok s2
  | n + 1, s =>
    match evolveUpTo P pr circ n s with
    | .error e => .error e
    | .ok s2 =>
      match ApplyGate P s2 (circ.getD (n + 1) defaultGate) pr false with
      | .error e => .error e
      | .ok (s3, _) => .ok s3

/-- The backward loop of `GetExpectationWithNoiseGradOneOne`
(lines 476–490): decrement `n`, re-evolve from the saved `ρ₀` when gate `n`
is differentiable, accumulate with the `+` sign, restore `sim_qs`'s buffer,
then step the Hamiltonian sidecar with `herm_circ[i]`. -/
noncomputable def noiseWalk {Ham : Type} (P : Policy Ham) (pr : String → ℝ)
    (pmap : String → Option ℕ) (dim : ℕ) (rho0 : ℕ → ℂ) (circ : List BasicGate) :
    (ℕ → ℂ) → DMState → DMState → ℕ → List BasicGate → Except String (ℕ → ℂ)
  | fg, _, _, _, [] => .ok fg
  | fg, sq, sh, n, hg :: hgs =>
    let n2 := n - 1
    let gn := circ.getD n2 defaultGate
    let step : Except String ((ℕ → ℂ) × DMState) :=
      if gn.params.data_.length ≠ gn.params.no_grad_parameters_.length then
        match evolveUpTo P pr circ n2 sq with
        | .error e => .error e
        | .ok sqe =>
          match ExpectDiffGate P sqe.qs sh.qs gn dim with
          | .error e => .error e
          | .ok gi =>
            match gradAccumPos pmap gi gn.params (requiresGrad gn.params) fg with
            | .error e => .error e
            | .ok fg2 => .ok (fg2, { sqe with qs := rho0 })
      else .ok (fg, sq)
    match step with
    | .error e => .error e
    | .ok (fg2, sq2) =>
      match ApplyGate P sh hg pr false with
      | .error e => .error e
      | .ok (sh2, _) => noiseWalk P pr pmap dim rho0 circ fg2 sq2 sh2 n2 hgs

/-- `DensityMatrixState::GetExpectationWithNoiseGradOneOne` (lines 460–492).
Lines 473–475 construct `std::runtime_error(...)` when
`circ.size() != herm_circ.size()` but never throw it; the discarded
temporary has no effect, which the embedding renders as the absence of any
length test. -/
noncomputable def GetExpectationWithNoiseGradOneOne {Ham : Type} (P : Policy Ham)
    (ham : Ham) (circ herm_circ : List BasicGate) (pr : String → ℝ)
    (pmap : String → Option ℕ) (self : DMState) : Except String (ℕ → ℂ) :=
  match ApplyCircuit P pr circ (copyState self) with
  | .error e => .error e
  | .ok (_, simq) =>
    let fg1 := Function.update (fun _ => (0 : ℂ)) 0 (P.getExpectation simq.qs ham self.dim)
    let simq1 := { simq with qs := self.qs }
    noiseWalk P pr pmap self.dim self.qs circ fg1 simq1 (hamSidecar P ham self)
      circ.length herm_circ

/-- Per-parameter total of the reversible-mode accumulation, following the
spec's words (§4.D): "Accumulate ∂f/∂θ += 2·Re(gᵢ') · (−coefficient of θ in
gᵢ's expression)", walked along the adjoint circuit with both sidecars
stepped after each readout.  Stated separately from the source embedding so
the two can be compared. -/
noncomputable def revGradSpecTotal {Ham : Type} (P : Policy Ham) (pr : String → ℝ)
    (dim : ℕ) (th : String) :
    DMState → DMState → List BasicGate → Except String ℂ
  | _, _, [] => .ok 0
  | sq, sh, g :: gs =>
    let cstep : Except String ℂ :=
      if g.params.data_.length ≠ g.params.no_grad_parameters_.length then
        match ExpectDiffGate P sq.qs sh.qs g dim with
        | .error e => .error e
        | .ok gi =>
          .ok (if th ∈ requiresGrad g.params then
                ((2 * gi.re * (-((g.params.data_.lookup th).getD 0)) : ℝ) : ℂ) else 0)
      else .ok 0
    match cstep with
    | .error e => .error e
    | .ok c =>
      match ApplyGate P sh g pr false with
      | .error e => .error e
      | .ok (sh2, _) =>
        match ApplyGate P sq g pr false with
        | .error e => .error e
        | .ok (sq2, _) =>
          match revGradSpecTotal P pr dim th sq2 sh2 gs with
          | .error e => .error e
          | .ok r => .ok (c + r)

/-- Per-parameter total of the noise-mode accumulation, following the spec's
words (§4.D noise mode): re-evolve from the saved ρ₀ at each differentiable
gate, "accumulate with sign +", then step the Hamiltonian sidecar. -/
noncomputable def noiseGradSpecTotal {Ham : Type} (P : Policy Ham) (pr : String → ℝ)
    (dim : ℕ) (th : String) (rho0 : ℕ → ℂ) (circ : List BasicGate) :
    DMState → DMState → ℕ → List BasicGate → Except String ℂ
  | _, _, _, [] => .ok 0
  | sq, sh, n, hg :: hgs =>
    let n2 := n - 1
    let gn := circ.getD n2 defaultGate
    let cstep : Except String (ℂ × DMState) :=
      if gn.params.data_.length ≠ gn.params.no_grad_parameters_.length then
        match evolveUpTo P pr circ n2 sq with
        | .error e => .error e
        | .ok sqe =>
          match ExpectDiffGate P sqe.qs sh.qs gn dim with
          | .error e => .error e
          | .ok gi =>
            .ok ((if th ∈ requiresGrad gn.params then
                   ((2 * gi.re * ((gn.params.data_.lookup th).getD 0) : ℝ) : ℂ) else 0),
                 { sqe with qs := rho0 })
      else .ok (0, sq)
    match cstep with
    | .error e => .error e
    | .ok (c, sq2) =>
      match ApplyGate P sh hg pr false with
      | .error e => .error e
      | .ok (sh2, _) =>
        match noiseGradSpecTotal P pr dim th rho0 circ sq2 sh2 n2 hgs with
        | .error e => .error e
        | .ok r => .ok (c + r)

/-- The `mea_threads` clamp of `GetExpectationWithReversibleGradOneMulti`
(lines 355–362) and `GetExpectationWithNoiseGradOneMulti` (lines 498–505):
`if (n_thread > 15) n_thread = 15; if (n_thread > (int)n_hams) n_thread = n_hams;`. -/
def clampThreads (n_thread : ℤ) (n_hams : ℕ) : ℤ :=
  let n1 := if n_thread > 15 then 15 else n_thread
  if n1 > (n_hams : ℤ) then (n_hams : ℤ) else n1

/-- The runtime gate record `mindquantum::sim::rt::Gate` (header under
`src/unnamed/part_000`). -/
structure RtGate where
  gate : String := "null"
  objs : List ℕ := []
  ctrls : List ℕ := []
  ang : ℝ := 0

/-- `rt::Gate::AddObj` (part_000 lines 44–49): rejects only an object qubit
that is already an object qubit. -/
def AddObj (g : RtGate) (obj : ℕ) : Except String RtGate :=
  if g.objs.contains obj then
    .error ("obj qubit " ++ toString obj ++ " already added.")
  else .ok { g with objs := g.objs ++ [obj] }

/-- `rt::Gate::AddCtrl` (part_000 lines 50–58): rejects a control qubit that
is already an object qubit or already a control qubit. -/
def AddCtrl (g : RtGate) (ctrl : ℕ) : Except String RtGate :=
  if g.objs.contains ctrl then
    .error ("ctrl qubit " ++ toString ctrl ++ " is already in obj qubits.")
  else if g.ctrls.contains ctrl then
    .error ("ctrl qubit " ++ toString ctrl ++ " already added.")
  else .ok { g with ctrls := g.ctrls ++ [ctrl] }

/-- One shot of `DensityMatrixState::Sampling` (lines 621–631): a fresh
state seeded for this shot, its buffer replaced by a copy of `this->qs`
(`CopyQS(sim.qs, qs, dim)`), the circuit applied, and the outcome row
assembled through `key_map[name] → column`; a key never measured reads the
map's default-constructed `0`. -/
noncomputable def shotResult {Ham : Type} (P : Policy Ham) (pr : String → ℝ)
    (circ : List BasicGate) (key_map : List (String × ℕ)) (selfQs : ℕ → ℂ)
    (nq dim : ℕ) (stream : ℕ → ℝ) : Except String (List ℕ) :=
  let sim0 : DMState := ⟨initQs dim, stream, 0, nq, dim⟩
  let sim := { sim0 with qs := selfQs }
  match ApplyCircuit P pr circ sim with
  | .error e => .error e
  | .ok (res0, _) =>
    .ok (key_map.foldl (fun v p => v.set p.2 ((res0.lookup p.1).getD 0))
          (List.replicate key_map.length 0))

/-- The shot loop of `Sampling` (lines 621–632), writing each shot's row
into the flat output. -/
noncomputable def sampleShots {Ham : Type} (P : Policy Ham) (pr : String → ℝ)
    (circ : List BasicGate) (key_map : List (String × ℕ)) (selfQs : ℕ → ℂ)
    (nq dim : ℕ) (shotRng : ℕ → (ℕ → ℝ)) :
    ℕ → ℕ → List ℕ → Except String (List ℕ)
  | _, 0, acc => .ok acc
  | i, todo + 1, acc =>
    match shotResult P pr circ key_map selfQs nq dim (shotRng i) with
    | .error e => .error e
    | .ok row => sampleShots P pr circ key_map selfQs nq dim shotRng (i + 1) todo (acc ++ row)

/-- `DensityMatrixState::Sampling` (lines 613–634).  `shotRng i` abstracts
the draw stream of the engine seeded for shot `i` (the source seeds it from
a parent engine's uniform `[1, 2²⁰)` draw).  The method never writes the
parent state's buffer; the embedding returns `self` alongside the flat
result. -/
noncomputable def Sampling {Ham : Type} (P : Policy Ham) (self : DMState)
    (circ : List BasicGate) (pr : String → ℝ) (shots : ℕ)
    (key_map : List (String × ℕ)) (shotRng : ℕ → (ℕ → ℝ)) :
    Except String (List ℕ × DMState) :=
  match sampleShots P pr circ key_map self.qs self.n_qubits self.dim shotRng 0 shots [] with
  | .error e => .error e
  | .ok res => .ok (res, self)

/-- `Except` success test (used to state that a call returns a result). -/
def isOkE {α : Type} : Except String α → Bool
  | .ok _ => true
  | .error _ => false

/-- Spec-side marginal of the measurement projector (spec §4.B):
`Σ_{r < dim, (r>>q)&1 == b} ρ[r,r]`, stated with the spec's bit test. -/
def diagMass (qs : ℕ → ℂ) (dim q b : ℕ) : ℝ :=
  ((List.range dim).map (fun r => if (r >>> q) &&& 1 = b then (qs (IdxMap r r)).re else 0)).sum

/-- A trivial kernel implementation, used to instantiate the
policy-parametric theorems at a concrete input. -/
def trivPolicy : Policy Unit where
  applyX := fun qs _ _ _ => qs
  applyY := fun qs _ _ _ => qs
  applyZ := fun qs _ _ _ => qs
  applyH := fun qs _ _ _ => qs
  applySGate := fun qs _ _ _ => qs
  applySdag := fun qs _ _ _ => qs
  applyT := fun qs _ _ _ => qs
  applyTdag := fun qs _ _ _ => qs
  applySWAP := fun qs _ _ _ => qs
  applyISWAP := fun qs _ _ _ => qs
  applyRX := fun qs _ _ _ _ _ => qs
  applyRY := fun qs _ _ _ _ _ => qs
  applyRZ := fun qs _ _ _ _ _ => qs
  applyXX := fun qs _ _ _ _ _ => qs
  applyYY := fun qs _ _ _ _ _ => qs
  applyZZ := fun qs _ _ _ _ _ => qs
  applyPS := fun qs _ _ _ _ _ => qs
  applyAmplitudeDamping := fun qs _ _ _ => qs
  applyPhaseDamping := fun qs _ _ _ => qs
  applyHermitianAmplitudeDamping := fun qs _ _ _ => qs
  applyPauli := fun qs _ _ _ => qs
  applyKraus := fun qs _ _ _ => qs
  getExpectation := fun _ _ _ => 0
  hamiltonianMatrix := fun _ _ => fun _ => 0
  expectDiffRX := fun _ _ _ _ _ => 0
  expectDiffRY := fun _ _ _ _ _ => 0
  expectDiffRZ := fun _ _ _ _ _ => 0
  expectDiffXX := fun _ _ _ _ _ => 0
  expectDiffYY := fun _ _ _ _ _ => 0
  expectDiffZZ := fun _ _ _ _ _ => 0
  expectDiffPS := fun _ _ _ _ _ => 0

/-- Concrete states and gates for the witness instantiations. -/
def st0 : DMState := ⟨initQs 2, fun _ => 0, 0, 1, 2⟩

def xGate : BasicGate := { name := gX, obj_qubits := [0] }

def iGate : BasicGate := { name := gI, obj_qubits := [0] }

def measGate : BasicGate := { name := "m0", obj_qubits := [0], is_measure := true }

def stMeas : DMState := ⟨fun i => if i = 0 then 1 else 0, fun _ => 0, 0, 1, 2⟩

def pr0 : String → ℝ := fun _ => 0

def fgW : ℕ → ℂ := Function.update (fun _ => (0 : ℂ)) 0 0

def prW : String → ℝ := setItems (setItems (fun _ => 0) ["a"] ([[(0 : ℝ)]].headD [])) [] []

/-! ## Theorems -/

theorem updProd_nil {α : Type} (f : α → ℂ) (i : ℕ) : updProd f [] i = 1 := rfl

theorem updProd_cons {α : Type} (f : α → ℂ) (u : ℕ × α) (L : List (ℕ × α)) (i : ℕ) :
    updProd f (u :: L) i = (if u.1 = i then f u.2 else 1) * updProd f L i := by
  simp [updProd]

theorem updProd_append {α : Type} (f : α → ℂ) (L1 L2 : List (ℕ × α)) (i : ℕ) :
    updProd f (L1 ++ L2) i = updProd f L1 i * updProd f L2 i := by
  simp [updProd]

/-- A sequence of in-place multiplicative updates acts on each entry as
multiplication by the product of the matching factors. -/
theorem applyUpds_apply {α : Type} (f : α → ℂ) :
    ∀ (L : List (ℕ × α)) (qs : ℕ → ℂ) (i : ℕ),
      applyUpds f L qs i = qs i * updProd f L i := by
  intro L
  induction L with
  | nil => intro qs i; simp [applyUpds, updProd]
  | cons u L ih =>
    intro qs i
    have hstep : applyUpds f (u :: L) qs
        = applyUpds f L (Function.update qs u.1 (qs u.1 * f u.2)) := rfl
    rw [hstep, ih, updProd_cons]
    by_cases h : u.1 = i
    · subst h
      rw [Function.update_same, if_pos rfl]
      ring
    · rw [Function.update_noteq (fun hh => h hh.symm), if_neg h]
      ring

theorem updProd_filter {α : Type} (f : α → ℂ) :
    ∀ (L : List (ℕ × α)) (i : ℕ),
      updProd f L i = updProd f (L.filter (fun u => decide (u.1 = i))) i := by
  intro L
  induction L with
  | nil => intro i; rfl
  | cons u L ih =>
    intro i
    by_cases h : u.1 = i
    · rw [updProd_cons, List.filter_cons_of_pos (by simpa using h), updProd_cons, ih]
    · rw [updProd_cons, List.filter_cons_of_neg (by simpa using h), if_neg h, one_mul, ih]

theorem zfac_pair_one (v : ℂ) (hv : v * star v = 1) :
    ∀ k, zfac (star v) k * zfac v k = 1 := by
  have h2 : star v * v = 1 := by rw [mul_comm]; exact hv
  intro k
  cases k with
  | kval => exact h2
  | kconj =>
    show star (star v) * star v = 1
    rw [star_star]
    exact hv
  | knorm =>
    show star v * star (star v) * (v * star v) = 1
    rw [star_star, h2, hv, one_mul]
  | kconjconj =>
    show star (star (star v)) * star (star v) = 1
    rw [star_star, star_star]
    exact h2

theorem updProd_conj_mul (v : ℂ) (hv : v * star v = 1) :
    ∀ (L : List (ℕ × ZKind)) (i : ℕ),
      updProd (zfac (star v)) L i * updProd (zfac v) L i = 1 := by
  intro L
  induction L with
  | nil => intro i; simp [updProd]
  | cons u L ih =>
    intro i
    rw [updProd_cons, updProd_cons]
    by_cases h : u.1 = i
    · rw [if_pos h, if_pos h]
      calc zfac (star v) u.2 * updProd (zfac (star v)) L i *
            (zfac v u.2 * updProd (zfac v) L i)
          = (zfac (star v) u.2 * zfac v u.2) *
            (updProd (zfac (star v)) L i * updProd (zfac v) L i) := by ring
        _ = 1 := by rw [zfac_pair_one v hv, ih, one_mul]
    · rw [if_neg h, if_neg h, one_mul, one_mul, ih]

/-- `ApplyZLike` with a unit-modulus diagonal value followed by `ApplyZLike`
with the conjugate value on the same qubits restores every packed entry:
the two passes perform the same update sequence, and each matching pair of
factors multiplies to `1`. -/
theorem zlike_roundtrip (qs : ℕ → ℂ) (objs ctrls : List ℕ) (v : ℂ) (dim : ℕ)
    (hv : v * star v = 1) :
    ApplyZLike (ApplyZLike qs objs ctrls v dim) objs ctrls (star v) dim = qs := by
  funext i
  rw [ApplyZLike, ApplyZLike, applyUpds_apply, applyUpds_apply]
  have hone := updProd_conj_mul v hv (zlikeUpds objs ctrls dim) i
  calc qs i * updProd (zfac v) (zlikeUpds objs ctrls dim) i *
        updProd (zfac (star v)) (zlikeUpds objs ctrls dim) i
      = qs i * (updProd (zfac (star v)) (zlikeUpds objs ctrls dim) i *
        updProd (zfac v) (zlikeUpds objs ctrls dim) i) := by ring
    _ = qs i := by rw [hone, mul_one]

/-- C6.  Applying `ApplySGate` then `ApplySdag` (or `ApplyT` then
`ApplyTdag`) on the same object and control qubits returns the packed
density matrix exactly to its original value (hence within every ε), for
every buffer, every qubit choice and every dimension. -/
theorem claim_C6_sdag_s_tdag_t_roundtrip :
    ∀ (qs : ℕ → ℂ) (objs ctrls : List ℕ) (dim : ℕ),
      ApplySdag (ApplySGate qs objs ctrls dim) objs ctrls dim = qs ∧
      ApplyTdag (ApplyT qs objs ctrls dim) objs ctrls dim = qs := by
  intro qs objs ctrls dim
  constructor
  · have hs : (-Complex.I) = star Complex.I := by
      rw [Complex.star_def, Complex.conj_I]
    have hv : Complex.I * star Complex.I = 1 := by
      rw [← hs]
      simp [Complex.I_mul_I]
    rw [ApplySdag, ApplySGate, hs]
    exact zlike_roundtrip qs objs ctrls Complex.I dim hv
  · have hc : ((Real.sqrt 2 : ℝ) : ℂ) ≠ 0 := by
      simp only [ne_eq, Complex.ofReal_eq_zero]
      positivity
    have hcc : ((Real.sqrt 2 : ℝ) : ℂ) * ((Real.sqrt 2 : ℝ) : ℂ) = 2 := by
      rw [← Complex.ofReal_mul, Real.mul_self_sqrt (by norm_num : (0 : ℝ) ≤ 2)]
      norm_num
    have hs : (1 - Complex.I) / ((Real.sqrt 2 : ℝ) : ℂ)
        = star ((1 + Complex.I) / ((Real.sqrt 2 : ℝ) : ℂ)) := by
      rw [Complex.star_def, map_div₀, map_add, map_one, Complex.conj_I, Complex.conj_ofReal]
      ring
    have hv : ((1 + Complex.I) / ((Real.sqrt 2 : ℝ) : ℂ)) *
        star ((1 + Complex.I) / ((Real.sqrt 2 : ℝ) : ℂ)) = 1 := by
      rw [← hs, div_mul_div_comm, hcc]
      have hnum : (1 + Complex.I) * (1 - Complex.I) = 2 := by
        have h2 : Complex.I * Complex.I = -1 := Complex.I_mul_I
        ring_nf
        rw [Complex.I_sq]
        ring
      rw [hnum]
      norm_num
    rw [ApplyTdag, ApplyT, hs]
    exact zlike_roundtrip qs objs ctrls _ dim hv

/-- C1.  Failing input for the controlled Z-like kernel: on `dim = 8` with
object qubit 0 and control qubit 2, the stored diagonal-block entry
`(r1, r0) = (5, 4)` of the row base `k = 2` is multiplied by `val` once per
inner-loop iteration (the source's "diagonal case" sits inside the column
loop), so `ApplySGate` multiplies it by `i·i = -1` instead of the single
factor `i` that `ρ ← G ρ G†` prescribes. -/
theorem claim_C1_ctrl_diagonal_updated_twice :
    (ApplySGate (fun _ => 1) [0] [2] 8) (IdxMap 5 4) = -1 ∧ (-1 : ℂ) ≠ Complex.I := by
  constructor
  · rw [ApplySGate, ApplyZLike, applyUpds_apply, updProd_filter]
    have hf : (zlikeUpds [0] [2] 8).filter (fun u => decide (u.1 = IdxMap 5 4))
        = [(IdxMap 5 4, ZKind.kval), (IdxMap 5 4, ZKind.kval)] := by decide
    rw [hf]
    simp [updProd, zfac, Complex.I_mul_I]
  · intro h
    have him := congrArg Complex.im h
    simp at him

/-- C5.  Failing input for the uncontrolled Z-like kernel: on `dim = 2`
(block `k = l = 0`, the diagonal block), line 50 multiplies the stored entry
`(1, 0)` by `val` and the `SelfMultiply` of line 51, called on the logical
upper entry `(0, 1)`, lands on the same stored slot and multiplies it by
`val` again; `ApplySGate` on the packed `|+⟩⟨+|` buffer `[1/2, 1/2, 1/2]`
therefore yields `-1/2` at `(1, 0)` where the claimed update (`× v` once)
gives `i/2`. -/
theorem claim_C5_diagonal_block_selfmultiply_twice :
    (ApplySGate (fun _ => (1 / 2 : ℂ)) [0] [] 2) (IdxMap 1 0) = -(1 / 2) ∧
    (-(1 / 2) : ℂ) ≠ Complex.I * (1 / 2) := by
  constructor
  · rw [ApplySGate, ApplyZLike, applyUpds_apply, updProd_filter]
    have hf : (zlikeUpds [0] [] 2).filter (fun u => decide (u.1 = IdxMap 1 0))
        = [(IdxMap 1 0, ZKind.kval), (IdxMap 1 0, ZKind.kconjconj)] := by decide
    rw [hf]
    simp [updProd, zfac, star_star, Complex.I_mul_I]
  · intro h
    have him := congrArg Complex.im h
    simp at him

/-- C7.  The `mea_threads` clamp of both `OneMulti` gradient entry points:
for every input `n_thread` the clamped value is `min n_thread (min 15 M)`,
in particular at most `min 15 M`. -/
theorem claim_C7_mea_threads_clamped :
    ∀ (n_thread : ℤ) (n_hams : ℕ),
      clampThreads n_thread n_hams = min n_thread (min 15 (n_hams : ℤ)) ∧
      clampThreads n_thread n_hams ≤ min 15 (n_hams : ℤ) := by
  intro n M
  have h : clampThreads n M = min n (min 15 (M : ℤ)) := by
    show (if (if n > 15 then (15 : ℤ) else n) > (M : ℤ) then (M : ℤ)
          else (if n > 15 then (15 : ℤ) else n)) = min n (min 15 (M : ℤ))
    rw [min_def, min_def]
    split_ifs <;> omega
  exact ⟨h, by rw [h]; exact min_le_right _ _⟩

/-- C8 counterexample.  Adding control qubit 5 and then object qubit 5
succeeds in both calls: `AddObj` only scans the object list, so an
object/control overlap created in this order is not detected, contradicting
"in either order of addition". -/
theorem claim_C8_counterexample_obj_after_ctrl :
    AddCtrl { gate := "null", objs := [], ctrls := [], ang := 0 } 5
      = .ok { gate := "null", objs := [], ctrls := [5], ang := 0 } ∧
    AddObj { gate := "null", objs := [], ctrls := [5], ang := 0 } 5
      = .ok { gate := "null", objs := [5], ctrls := [5], ang := 0 } := by
  exact ⟨rfl, rfl⟩

/-- C8 amended.  `AddObj` fails (naming the qubit) exactly when the qubit is
already an object qubit; `AddCtrl` fails exactly when the qubit is already
an object qubit or already a control qubit.  An overlap is therefore caught
only when the control is added second; on failure nothing is appended. -/
theorem claim_C8_amended_conflicts :
    ∀ (g : RtGate) (q : ℕ),
      (isOkE (AddObj g q) = false ↔ q ∈ g.objs) ∧
      (q ∈ g.objs → AddObj g q = .error ("obj qubit " ++ toString q ++ " already added.")) ∧
      (q ∉ g.objs → AddObj g q = .ok { g with objs := g.objs ++ [q] }) ∧
      (isOkE (AddCtrl g q) = false ↔ (q ∈ g.objs ∨ q ∈ g.ctrls)) ∧
      (q ∈ g.objs →
        AddCtrl g q = .error ("ctrl qubit " ++ toString q ++ " is already in obj qubits.")) ∧
      (q ∉ g.objs → q ∈ g.ctrls →
        AddCtrl g q = .error ("ctrl qubit " ++ toString q ++ " already added.")) ∧
      (q ∉ g.objs → q ∉ g.ctrls → AddCtrl g q = .ok { g with ctrls := g.ctrls ++ [q] }) := by
  intro g q
  refine ⟨?_, ?_, ?_, ?_, ?_, ?_, ?_⟩
  · unfold AddObj
    by_cases h : q ∈ g.objs <;> simp [h, isOkE]
  · intro h
    unfold AddObj
    simp [h]
  · intro h
    unfold AddObj
    simp [h]
  · unfold AddCtrl
    by_cases h : q ∈ g.objs
    · simp [h, isOkE]
    · by_cases h2 : q ∈ g.ctrls <;> simp [h, h2, isOkE]
  · intro h
    unfold AddCtrl
    simp [h]
  · intro h h2
    unfold AddCtrl
    simp [h, h2]
  · intro h h2
    unfold AddCtrl
    simp [h, h2]

theorem triangle_succ (r : ℕ) : (r + 1) * (r + 2) / 2 = r * (r + 1) / 2 + (r + 1) := by
  obtain ⟨t, ht⟩ := Nat.even_mul_succ_self r
  have h2 : (r + 1) * (r + 2) = r * (r + 1) + 2 * (r + 1) := by ring
  omega

theorem IdxMap_lt_next_row {r c : ℕ} (h : c ≤ r) : IdxMap r c < (r + 1) * (r + 2) / 2 := by
  have := triangle_succ r
  unfold IdxMap
  omega

theorem IdxMap_mono {r c r' c' : ℕ} (hc : c ≤ r) (hr : r < r') (hc' : c' ≤ r') :
    IdxMap r c < IdxMap r' c' := by
  have h1 : IdxMap r c < (r + 1) * (r + 2) / 2 := IdxMap_lt_next_row hc
  have h2 : (r + 1) * (r + 2) / 2 ≤ r' * (r' + 1) / 2 := by
    apply Nat.div_le_div_right
    apply Nat.mul_le_mul <;> omega
  unfold IdxMap at h1 ⊢
  omega

theorem IdxMap_inj {r c r' c' : ℕ} (hc : c ≤ r) (hc' : c' ≤ r')
    (h : IdxMap r c = IdxMap r' c') : r = r' ∧ c = c' := by
  rcases lt_trichotomy r r' with hlt | heq | hgt
  · exact absurd h (Nat.ne_of_lt (IdxMap_mono hc hlt hc'))
  · subst heq
    refine ⟨rfl, ?_⟩
    unfold IdxMap at h
    omega
  · exact absurd h.symm (Nat.ne_of_lt (IdxMap_mono hc' hgt hc))

theorem updProd_flatMap {α β : Type} (f : α → ℂ) (L : List β) (g : β → List (ℕ × α)) (i : ℕ) :
    updProd f (L.flatMap g) i = (L.map (fun b => updProd f (g b) i)).prod := by
  induction L with
  | nil => rfl
  | cons b L ih =>
    rw [List.flatMap_cons, updProd_append, ih, List.map_cons, List.prod_cons]

theorem updProd_map {α β : Type} (f : α → ℂ) (l : List β) (h : β → ℕ × α) (i : ℕ) :
    updProd f (l.map h) i = (l.map (fun b => if (h b).1 = i then f (h b).2 else 1)).prod := by
  rw [updProd, List.map_map]
  rfl

theorem prod_map_range_one (h : ℕ → ℂ) (n : ℕ) (h1 : ∀ j, j < n → h j = 1) :
    ((List.range n).map h).prod = 1 := by
  apply List.prod_eq_one
  intro x hx
  simp only [List.mem_map, List.mem_range] at hx
  obtain ⟨j, hj, rfl⟩ := hx
  exact h1 j hj

theorem prod_map_range_single (h : ℕ → ℂ) (n r : ℕ) (hr : r < n)
    (h1 : ∀ j, j < n → j ≠ r → h j = 1) :
    ((List.range n).map h).prod = h r := by
  induction n with
  | zero => omega
  | succ n ih =>
    rw [List.range_succ, List.map_append, List.prod_append]
    simp only [List.map_cons, List.map_nil, List.prod_cons, List.prod_nil, mul_one]
    by_cases hrn : r = n
    · subst hrn
      rw [prod_map_range_one h r (fun j hj => h1 j (by omega) (by omega)), one_mul]
    · rw [ih (by omega) (fun j hj hjr => h1 j (by omega) hjr),
        h1 n (by omega) (fun hh => hrn hh.symm), mul_one]

/-- The spec-modelled `ConditionalMul` acts on each packed triangle entry
`(r, c)`, `c ≤ r < dim`, as a single multiplication by the conditional
coefficient. -/
theorem conditionalMul_entry (src : ℕ → ℂ) (mask condi : ℕ) (succ fail : ℂ)
    (dim r c : ℕ) (hr : r < dim) (hc : c ≤ r) :
    ConditionalMul src mask condi succ fail dim (IdxMap r c) =
      (if r &&& mask = condi ∧ c &&& mask = condi then succ else fail) * src (IdxMap r c) := by
  rw [ConditionalMul, applyUpds_apply]
  have hP : updProd id (condMulUpds mask condi succ fail dim) (IdxMap r c)
      = (if r &&& mask = condi ∧ c &&& mask = condi then succ else fail) := by
    rw [condMulUpds, updProd_flatMap]
    have hstep : ∀ r', updProd id
        ((List.range (r' + 1)).map (fun c' =>
          (IdxMap r' c', if r' &&& mask = condi ∧ c' &&& mask = condi then succ else fail)))
        (IdxMap r c)
        = ((List.range (r' + 1)).map (fun c' =>
            if IdxMap r' c' = IdxMap r c then
              (if r' &&& mask = condi ∧ c' &&& mask = condi then succ else fail)
            else 1)).prod := by
      intro r'
      rw [updProd_map]
      rfl
    rw [prod_map_range_single _ dim r hr]
    · rw [hstep r, prod_map_range_single _ (r + 1) c (by omega)]
      · rw [if_pos rfl]
      · intro j hj hjc
        rw [if_neg]
        intro hidx
        exact hjc (IdxMap_inj (by omega) hc hidx).2
    · intro r' _ hr'
      rw [hstep r']
      apply prod_map_range_one
      intro j hj
      rw [if_neg]
      intro hidx
      exact hr' (IdxMap_inj (by omega) hc hidx).1
  rw [hP]
  ring

theorem maskBit_le_one (r q : ℕ) : (r >>> q) &&& 1 = 0 ∨ (r >>> q) &&& 1 = 1 := by
  rw [Nat.and_one_is_mod]
  omega

theorem maskBit_one_iff (r q : ℕ) : (r &&& (1 <<< q) = 1 <<< q) ↔ ((r >>> q) &&& 1 = 1) := by
  have hp : 0 < 2 ^ q := Nat.pos_pow_of_pos q (by norm_num)
  rw [Nat.shiftLeft_eq, one_mul, Nat.and_two_pow, Nat.and_one_is_mod,
    Nat.shiftRight_eq_div_pow, Nat.testBit_to_div_mod]
  by_cases h : r / 2 ^ q % 2 = 1
  · simp [h]
  · simp [h]
    omega

theorem maskBit_zero_iff (r q : ℕ) : (r &&& (1 <<< q) = 0) ↔ ((r >>> q) &&& 1 = 0) := by
  have hp : 0 < 2 ^ q := Nat.pos_pow_of_pos q (by norm_num)
  rw [Nat.shiftLeft_eq, one_mul, Nat.and_two_pow, Nat.and_one_is_mod,
    Nat.shiftRight_eq_div_pow, Nat.testBit_to_div_mod]
  by_cases h : r / 2 ^ q % 2 = 1
  · simp [h]
  · simp [h]
    omega

theorem collect_eq_diagMass (qs : ℕ → ℂ) (dim q : ℕ) :
    DiagonalConditionalCollect qs (1 <<< q) (1 <<< q) true dim = diagMass qs dim q 1 := by
  unfold DiagonalConditionalCollect diagMass
  congr 1
  apply List.map_congr_left
  intro r _
  exact if_congr (maskBit_one_iff r q) rfl rfl

theorem claim_C8_amended_conflicts_witness :
    ((2 : ℕ) ∉ [1]) ∧
    AddObj { gate := "null", objs := [1], ctrls := [], ang := 0 } 2
      = .ok { gate := "null", objs := [1, 2], ctrls := [], ang := 0 } :=
  ⟨by decide,
    (claim_C8_amended_conflicts { gate := "null", objs := [1], ctrls := [], ang := 0 }
      2).2.2.1 (by decide)⟩

theorem applyMeasure_pos_eq (st : DMState) (g : BasicGate)
    (hu : st.rng st.rngIdx < DiagonalConditionalCollect st.qs (1 <<< g.obj_qubits.headD 0)
      (1 <<< g.obj_qubits.headD 0) true st.dim) :
    ApplyMeasure st g =
      ({ st with
          qs := ConditionalMul st.qs (1 <<< g.obj_qubits.headD 0) (1 <<< g.obj_qubits.headD 0)
            (((1 : ℝ) / DiagonalConditionalCollect st.qs (1 <<< g.obj_qubits.headD 0)
              (1 <<< g.obj_qubits.headD 0) true st.dim : ℝ) : ℂ) 0 st.dim,
          rngIdx := st.rngIdx + 1 }, 1) := by
  have hne : (1 : ℕ) <<< g.obj_qubits.headD 0 ≠ 0 := by
    rw [Nat.shiftLeft_eq, one_mul]
    exact (Nat.pos_pow_of_pos _ (by norm_num)).ne'
  simp only [ApplyMeasure]
  rw [if_pos hu, if_neg hne, if_pos hne]

theorem applyMeasure_neg_eq (st : DMState) (g : BasicGate)
    (hu : ¬ st.rng st.rngIdx < DiagonalConditionalCollect st.qs (1 <<< g.obj_qubits.headD 0)
      (1 <<< g.obj_qubits.headD 0) true st.dim) :
    ApplyMeasure st g =
      ({ st with
          qs := ConditionalMul st.qs (1 <<< g.obj_qubits.headD 0) 0
            (((1 : ℝ) / ((1 : ℝ) - DiagonalConditionalCollect st.qs (1 <<< g.obj_qubits.headD 0)
              (1 <<< g.obj_qubits.headD 0) true st.dim) : ℝ) : ℂ) 0 st.dim,
          rngIdx := st.rngIdx + 1 }, 0) := by
  simp only [ApplyMeasure]
  rw [if_neg hu, Nat.zero_shiftLeft, if_pos rfl, if_neg (by simp)]

/-- C3.  `ApplyMeasure` computes `p₁` as the diagonal mass of the bit-set
indices, yields outcome 1 exactly when the drawn `u` is below `p₁`, returns
0 or 1, and rescales the surviving packed block by `1/p₁` (outcome 1) or
`1/(1-p₁)` (outcome 0) while zeroing the complementary block; under the
trace-1 contract `1 - p₁` is the probability of outcome 0. -/
theorem claim_C3_apply_measure_projector (st : DMState) (g : BasicGate) (q : ℕ)
    (rest : List ℕ) (hq : g.obj_qubits = q :: rest) :
    ((ApplyMeasure st g).2
        = if st.rng st.rngIdx < diagMass st.qs st.dim q 1 then 1 else 0) ∧
    ((ApplyMeasure st g).2 = 0 ∨ (ApplyMeasure st g).2 = 1) ∧
    (∀ r c : ℕ, c ≤ r → r < st.dim →
      (ApplyMeasure st g).1.qs (IdxMap r c) =
        (if (r >>> q) &&& 1 = (ApplyMeasure st g).2 ∧
            (c >>> q) &&& 1 = (ApplyMeasure st g).2 then
          (if st.rng st.rngIdx < diagMass st.qs st.dim q 1 then
            (((1 : ℝ) / diagMass st.qs st.dim q 1 : ℝ) : ℂ)
          else (((1 : ℝ) / ((1 : ℝ) - diagMass st.qs st.dim q 1) : ℝ) : ℂ))
        else 0) * st.qs (IdxMap r c)) ∧
    (diagMass st.qs st.dim q 0 + diagMass st.qs st.dim q 1 = 1 →
      1 - diagMass st.qs st.dim q 1 = diagMass st.qs st.dim q 0) := by
  have hhead : g.obj_qubits.headD 0 = q := by rw [hq]; rfl
  have hcol : DiagonalConditionalCollect st.qs (1 <<< q) (1 <<< q) true st.dim
      = diagMass st.qs st.dim q 1 := collect_eq_diagMass st.qs st.dim q
  by_cases hu : st.rng st.rngIdx < diagMass st.qs st.dim q 1
  · have hu' : st.rng st.rngIdx < DiagonalConditionalCollect st.qs
        (1 <<< g.obj_qubits.headD 0) (1 <<< g.obj_qubits.headD 0) true st.dim := by
      rw [hhead, hcol]
      exact hu
    have happ := applyMeasure_pos_eq st g hu'
    rw [hhead, hcol] at happ
    have hret : (ApplyMeasure st g).2 = 1 := by rw [happ]
    refine ⟨?_, ?_, ?_, fun h => by linarith⟩
    · rw [hret, if_pos hu]
    · right
      exact hret
    · intro r c hcr hrd
      rw [hret, happ]
      show ConditionalMul st.qs (1 <<< q) (1 <<< q)
        (((1 : ℝ) / diagMass st.qs st.dim q 1 : ℝ) : ℂ) 0 st.dim (IdxMap r c) = _
      rw [conditionalMul_entry st.qs (1 <<< q) (1 <<< q)
          (((1 : ℝ) / diagMass st.qs st.dim q 1 : ℝ) : ℂ) 0 st.dim r c hrd hcr,
        if_congr (and_congr (maskBit_one_iff r q) (maskBit_one_iff c q)) rfl rfl,
        if_pos hu]
  · have hu' : ¬ st.rng st.rngIdx < DiagonalConditionalCollect st.qs
        (1 <<< g.obj_qubits.headD 0) (1 <<< g.obj_qubits.headD 0) true st.dim := by
      rw [hhead, hcol]
      exact hu
    have happ := applyMeasure_neg_eq st g hu'
    rw [hhead, hcol] at happ
    have hret : (ApplyMeasure st g).2 = 0 := by rw [happ]
    refine ⟨?_, ?_, ?_, fun h => by linarith⟩
    · rw [hret, if_neg hu]
    · left
      exact hret
    · intro r c hcr hrd
      rw [hret, happ]
      show ConditionalMul st.qs (1 <<< q) 0
        (((1 : ℝ) / ((1 : ℝ) - diagMass st.qs st.dim q 1) : ℝ) : ℂ) 0 st.dim (IdxMap r c) = _
      rw [conditionalMul_entry st.qs (1 <<< q) 0
          (((1 : ℝ) / ((1 : ℝ) - diagMass st.qs st.dim q 1) : ℝ) : ℂ) 0 st.dim r c hrd hcr,
        if_congr (and_congr (maskBit_zero_iff r q) (maskBit_zero_iff c q)) rfl rfl,
        if_neg hu]

theorem claim_C3_apply_measure_projector_witness :
    (measGate.obj_qubits = 0 :: ([] : List ℕ)) ∧
    (((ApplyMeasure stMeas measGate).2
        = if stMeas.rng stMeas.rngIdx < diagMass stMeas.qs stMeas.dim 0 1 then 1 else 0) ∧
    ((ApplyMeasure stMeas measGate).2 = 0 ∨ (ApplyMeasure stMeas measGate).2 = 1) ∧
    (∀ r c : ℕ, c ≤ r → r < stMeas.dim →
      (ApplyMeasure stMeas measGate).1.qs (IdxMap r c) =
        (if (r >>> 0) &&& 1 = (ApplyMeasure stMeas measGate).2 ∧
            (c >>> 0) &&& 1 = (ApplyMeasure stMeas measGate).2 then
          (if stMeas.rng stMeas.rngIdx < diagMass stMeas.qs stMeas.dim 0 1 then
            (((1 : ℝ) / diagMass stMeas.qs stMeas.dim 0 1 : ℝ) : ℂ)
          else (((1 : ℝ) / ((1 : ℝ) - diagMass stMeas.qs stMeas.dim 0 1) : ℝ) : ℂ))
        else 0) * stMeas.qs (IdxMap r c)) ∧
    (diagMass stMeas.qs stMeas.dim 0 0 + diagMass stMeas.qs stMeas.dim 0 1 = 1 →
      1 - diagMass stMeas.qs stMeas.dim 0 1 = diagMass stMeas.qs stMeas.dim 0 0)) :=
  ⟨rfl, claim_C3_apply_measure_projector stMeas measGate 0 [] rfl⟩

theorem applyMeasure_ret_01 (st : DMState) (g : BasicGate) :
    (ApplyMeasure st g).2 = 0 ∨ (ApplyMeasure st g).2 = 1 := by
  by_cases hu : st.rng st.rngIdx < DiagonalConditionalCollect st.qs
      (1 <<< g.obj_qubits.headD 0) (1 <<< g.obj_qubits.headD 0) true st.dim
  · right
    rw [applyMeasure_pos_eq st g hu]
  · left
    rw [applyMeasure_neg_eq st g hu]

theorem applyGate_ok_cases {Ham : Type} (P : Policy Ham) (st : DMState) (g : BasicGate)
    (pr : String → ℝ) (d : Bool) (st2 : DMState) (r : ℕ)
    (heq : ApplyGate P st g pr d = .ok (st2, r)) :
    r = 2 ∨ (g.is_measure = true ∧ ApplyMeasure st g = (st2, r)) := by
  simp only [ApplyGate] at heq
  by_cases h1 : g.name = gI
  · rw [if_pos h1] at heq
    left
    simp only [Except.ok.injEq, Prod.mk.injEq] at heq
    exact heq.2.symm
  rw [if_neg h1] at heq
  by_cases h2 : g.name = gX
  · rw [if_pos h2] at heq
    left
    simp only [Except.ok.injEq, Prod.mk.injEq] at heq
    exact heq.2.symm
  rw [if_neg h2] at heq
  by_cases h3 : g.name = gCNOT
  · rw [if_pos h3] at heq
    left
    simp only [Except.ok.injEq, Prod.mk.injEq] at heq
    exact heq.2.symm
  rw [if_neg h3] at heq
  by_cases h4 : g.name = gY
  · rw [if_pos h4] at heq
    left
    simp only [Except.ok.injEq, Prod.mk.injEq] at heq
    exact heq.2.symm
  rw [if_neg h4] at heq
  by_cases h5 : g.name = gZ
  · rw [if_pos h5] at heq
    left
    simp only [Except.ok.injEq, Prod.mk.injEq] at heq
    exact heq.2.symm
  rw [if_neg h5] at heq
  by_cases h6 : g.name = gH
  · rw [if_pos h6] at heq
    left
    simp only [Except.ok.injEq, Prod.mk.injEq] at heq
    exact heq.2.symm
  rw [if_neg h6] at heq
  by_cases h7 : g.name = gS
  · rw [if_pos h7] at heq
    left
    simp only [Except.ok.injEq, Prod.mk.injEq] at heq
    exact heq.2.symm
  rw [if_neg h7] at heq
  by_cases h8 : g.name = gT
  · rw [if_pos h8] at heq
    left
    simp only [Except.ok.injEq, Prod.mk.injEq] at heq
    exact heq.2.symm
  rw [if_neg h8] at heq
  by_cases h9 : g.name = gSWAP
  · rw [if_pos h9] at heq
    left
    simp only [Except.ok.injEq, Prod.mk.injEq] at heq
    exact heq.2.symm
  rw [if_neg h9] at heq
  by_cases h10 : g.name = gISWAP
  · rw [if_pos h10] at heq
    left
    simp only [Except.ok.injEq, Prod.mk.injEq] at heq
    exact heq.2.symm
  rw [if_neg h10] at heq
  by_cases h11 : g.name = gRX
  · rw [if_pos h11] at heq
    left
    simp only [Except.ok.injEq, Prod.mk.injEq] at heq
    exact heq.2.symm
  rw [if_neg h11] at heq
  by_cases h12 : g.name = gRY
  · rw [if_pos h12] at heq
    left
    simp only [Except.ok.injEq, Prod.mk.injEq] at heq
    exact heq.2.symm
  rw [if_neg h12] at heq
  by_cases h13 : g.name = gRZ
  · rw [if_pos h13] at heq
    left
    simp only [Except.ok.injEq, Prod.mk.injEq] at heq
    exact heq.2.symm
  rw [if_neg h13] at heq
  by_cases h14 : g.name = gXX
  · rw [if_pos h14] at heq
    left
    simp only [Except.ok.injEq, Prod.mk.injEq] at heq
    exact heq.2.symm
  rw [if_neg h14] at heq
  by_cases h15 : g.name = gZZ
  · rw [if_pos h15] at heq
    left
    simp only [Except.ok.injEq, Prod.mk.injEq] at heq
    exact heq.2.symm
  rw [if_neg h15] at heq
  by_cases h16 : g.name = gYY
  · rw [if_pos h16] at heq
    left
    simp only [Except.ok.injEq, Prod.mk.injEq] at heq
    exact heq.2.symm
  rw [if_neg h16] at heq
  by_cases h17 : g.name = gPS
  · rw [if_pos h17] at heq
    left
    simp only [Except.ok.injEq, Prod.mk.injEq] at heq
    exact heq.2.symm
  rw [if_neg h17] at heq
  by_cases hm : g.is_measure = true
  · rw [if_pos hm] at heq
    right
    refine ⟨hm, ?_⟩
    simp only [Except.ok.injEq] at heq
    exact heq
  rw [if_neg hm] at heq
  by_cases hc : g.is_channel = true
  · rw [if_pos hc] at heq
    revert heq
    cases hch : ApplyChannel P st g with
    | error e =>
      intro heq
      simp at heq
    | ok stc =>
      intro heq
      left
      simp only [Except.ok.injEq, Prod.mk.injEq] at heq
      exact heq.2.symm
  rw [if_neg hc] at heq
  exact absurd heq (by simp)

/-- C10.  Every successfully dispatched non-measurement gate makes
`ApplyGate` return the sentinel `2`; every return value is 0, 1 or 2, a
value other than 2 can only come from a measurement gate, and an identity
gate leaves the state (hence the density matrix) unchanged. -/
theorem claim_C10_dispatch_sentinel :
    ∀ {Ham : Type} (P : Policy Ham) (st : DMState) (g : BasicGate)
      (pr : String → ℝ) (d : Bool),
      (g.is_measure = false →
        ∀ st2 r, ApplyGate P st g pr d = .ok (st2, r) → r = 2) ∧
      (∀ st2 r, ApplyGate P st g pr d = .ok (st2, r) → r ≠ 2 → g.is_measure = true) ∧
      (∀ st2 r, ApplyGate P st g pr d = .ok (st2, r) → r = 0 ∨ r = 1 ∨ r = 2) ∧
      (g.name = gI → ApplyGate P st g pr d = .ok (st, 2)) := by
  intro Ham P st g pr d
  refine ⟨?_, ?_, ?_, ?_⟩
  · intro hm st2 r heq
    rcases applyGate_ok_cases P st g pr d st2 r heq with h2 | ⟨hmeas, _⟩
    · exact h2
    · rw [hm] at hmeas
      exact absurd hmeas (by simp)
  · intro st2 r heq hne
    rcases applyGate_ok_cases P st g pr d st2 r heq with h2 | ⟨hmeas, _⟩
    · exact absurd h2 hne
    · exact hmeas
  · intro st2 r heq
    rcases applyGate_ok_cases P st g pr d st2 r heq with h2 | ⟨_, hpair⟩
    · right; right; exact h2
    · have hr : r = (ApplyMeasure st g).2 := by rw [hpair]
      rcases applyMeasure_ret_01 st g with h0 | h1
      · left; rw [hr, h0]
      · right; left; rw [hr, h1]
  · intro hname
    simp only [ApplyGate]
    rw [if_pos hname]

theorem claim_C10_dispatch_sentinel_witness :
    (iGate.name = gI) ∧ ApplyGate trivPolicy st0 iGate pr0 false = .ok (st0, 2) :=
  ⟨rfl, (claim_C10_dispatch_sentinel trivPolicy st0 iGate pr0 false).2.2.2 rfl⟩

/-- C2.  Failing input for the noise-mode gradient's length check: with
`circ = [X]` and `herm_circ = []` the sizes differ, yet the call returns a
computed result, because lines 473–475 construct the `runtime_error`
without throwing it. -/
theorem claim_C2_noise_mismatch_returns_result :
    ([xGate].length ≠ ([] : List BasicGate).length) ∧
    isOkE (GetExpectationWithNoiseGradOneOne trivPolicy () [xGate] []
      pr0 (fun _ => none) st0) = true := by
  constructor
  · simp
  · rfl

theorem gradAccumNeg_entry (pmap : String → Option ℕ) (gi : ℂ) (p : PRes) (th : String)
    (idx : ℕ) (hth : pmap th = some idx) (hinj : ∀ n, pmap n = some idx → n = th) :
    ∀ (ns : List String) (fg out : ℕ → ℂ), ns.Nodup →
      gradAccumNeg pmap gi p ns fg = .ok out →
      out (1 + idx) = fg (1 + idx) +
        (if th ∈ ns then ((2 * gi.re * (-((p.data_.lookup th).getD 0)) : ℝ) : ℂ) else 0) := by
  intro ns
  induction ns with
  | nil =>
    intro fg out _ hok
    simp only [gradAccumNeg, Except.ok.injEq] at hok
    rw [← hok]
    simp
  | cons n ns ih =>
    intro fg out hnd hok
    simp only [gradAccumNeg] at hok
    cases hpn : pmap n with
    | none =>
      rw [hpn] at hok
      exact absurd hok (by simp)
    | some j =>
      rw [hpn] at hok
      have hnd2 := (List.nodup_cons.mp hnd).2
      have hres := ih _ out hnd2 hok
      by_cases hj : j = idx
      · subst hj
        have hn : n = th := hinj n hpn
        subst hn
        have hnotin : n ∉ ns := (List.nodup_cons.mp hnd).1
        rw [hres, Function.update_same, if_neg hnotin, if_pos (List.mem_cons_self n ns)]
        ring
      · have hne : (1 : ℕ) + idx ≠ 1 + j := by omega
        rw [hres, Function.update_noteq hne]
        have hnth : ¬ th = n := by
          intro hh
          rw [← hh, hth] at hpn
          exact hj (by injection hpn; omega)
        have hmem : (th ∈ n :: ns) ↔ th ∈ ns := by
          simp [List.mem_cons, hnth]
        rw [if_congr hmem rfl rfl]

theorem gradAccumPos_entry (pmap : String → Option ℕ) (gi : ℂ) (p : PRes) (th : String)
    (idx : ℕ) (hth : pmap th = some idx) (hinj : ∀ n, pmap n = some idx → n = th) :
    ∀ (ns : List String) (fg out : ℕ → ℂ), ns.Nodup →
      gradAccumPos pmap gi p ns fg = .ok out →
      out (1 + idx) = fg (1 + idx) +
        (if th ∈ ns then ((2 * gi.re * ((p.data_.lookup th).getD 0) : ℝ) : ℂ) else 0) := by
  intro ns
  induction ns with
  | nil =>
    intro fg out _ hok
    simp only [gradAccumPos, Except.ok.injEq] at hok
    rw [← hok]
    simp
  | cons n ns ih =>
    intro fg out hnd hok
    simp only [gradAccumPos] at hok
    cases hpn : pmap n with
    | none =>
      rw [hpn] at hok
      exact absurd hok (by simp)
    | some j =>
      rw [hpn] at hok
      have hnd2 := (List.nodup_cons.mp hnd).2
      have hres := ih _ out hnd2 hok
      by_cases hj : j = idx
      · subst hj
        have hn : n = th := hinj n hpn
        subst hn
        have hnotin : n ∉ ns := (List.nodup_cons.mp hnd).1
        rw [hres, Function.update_same, if_neg hnotin, if_pos (List.mem_cons_self n ns)]
        ring
      · have hne : (1 : ℕ) + idx ≠ 1 + j := by omega
        rw [hres, Function.update_noteq hne]
        have hnth : ¬ th = n := by
          intro hh
          rw [← hh, hth] at hpn
          exact hj (by injection hpn; omega)
        have hmem : (th ∈ n :: ns) ↔ th ∈ ns := by
          simp [List.mem_cons, hnth]
        rw [if_congr hmem rfl rfl]

theorem revWalk_entry {Ham : Type} (P : Policy Ham) (pr : String → ℝ)
    (pmap : String → Option ℕ) (dim : ℕ) (th : String) (idx : ℕ)
    (hth : pmap th = some idx) (hinj : ∀ n, pmap n = some idx → n = th) :
    ∀ (gs : List BasicGate) (fg out : ℕ → ℂ) (sq sh : DMState),
      (∀ g ∈ gs, (g.params.data_.map Prod.fst).Nodup) →
      revWalk P pr pmap dim fg sq sh gs = .ok out →
      ∃ c, revGradSpecTotal P pr dim th sq sh gs = .ok c ∧
        out (1 + idx) = fg (1 + idx) + c := by
  intro gs
  induction gs with
  | nil =>
    intro fg out sq sh _ hok
    simp only [revWalk, Except.ok.injEq] at hok
    refine ⟨0, rfl, ?_⟩
    rw [hok, add_zero]
  | cons g gs ih =>
    intro fg out sq sh hnd hok
    simp only [revWalk] at hok
    simp only [revGradSpecTotal]
    by_cases hdiff : g.params.data_.length ≠ g.params.no_grad_parameters_.length
    · rw [if_pos hdiff] at hok
      rw [if_pos hdiff]
      cases hedg : ExpectDiffGate P sq.qs sh.qs g dim with
      | error e =>
        simp only [hedg] at hok
        exact Except.noConfusion hok
      | ok gi =>
        simp only [hedg] at hok
        cases hacc : gradAccumNeg pmap gi g.params (requiresGrad g.params) fg with
        | error e =>
          simp only [hacc] at hok
          exact Except.noConfusion hok
        | ok fg2 =>
          simp only [hacc] at hok
          cases hsh : ApplyGate P sh g pr false with
          | error e =>
            simp only [hsh] at hok
            exact Except.noConfusion hok
          | ok shp =>
            obtain ⟨sh2, rr⟩ := shp
            simp only [hsh] at hok
            cases hsq : ApplyGate P sq g pr false with
            | error e =>
              simp only [hsq] at hok
              exact Except.noConfusion hok
            | ok sqp =>
              obtain ⟨sq2, rr2⟩ := sqp
              simp only [hsq] at hok
              obtain ⟨c, hspec, hout⟩ :=
                ih fg2 out sq2 sh2 (fun g' hg' => hnd g' (List.mem_cons_of_mem _ hg')) hok
              have hndg : (requiresGrad g.params).Nodup :=
                (hnd g (List.mem_cons_self _ _)).filter _
              have hfg2 := gradAccumNeg_entry pmap gi g.params th idx hth hinj
                (requiresGrad g.params) fg fg2 hndg hacc
              refine ⟨(if th ∈ requiresGrad g.params then
                  ((2 * gi.re * (-((g.params.data_.lookup th).getD 0)) : ℝ) : ℂ) else 0) + c,
                ?_, ?_⟩
              · simp only [hedg, hsh, hsq, hspec]
              · rw [hout, hfg2]
                ring
    · rw [if_neg hdiff] at hok
      rw [if_neg hdiff]
      cases hsh : ApplyGate P sh g pr false with
      | error e =>
        simp only [hsh] at hok
        exact Except.noConfusion hok
      | ok shp =>
        obtain ⟨sh2, rr⟩ := shp
        simp only [hsh] at hok
        cases hsq : ApplyGate P sq g pr false with
        | error e =>
          simp only [hsq] at hok
          exact Except.noConfusion hok
        | ok sqp =>
          obtain ⟨sq2, rr2⟩ := sqp
          simp only [hsq] at hok
          obtain ⟨c, hspec, hout⟩ :=
            ih fg out sq2 sh2 (fun g' hg' => hnd g' (List.mem_cons_of_mem _ hg')) hok
          refine ⟨0 + c, ?_, ?_⟩
          · simp only [hsh, hsq, hspec]
          · rw [hout, zero_add]

theorem noiseWalk_entry {Ham : Type} (P : Policy Ham) (pr : String → ℝ)
    (pmap : String → Option ℕ) (dim : ℕ) (rho0 : ℕ → ℂ) (circ : List BasicGate)
    (th : String) (idx : ℕ)
    (hth : pmap th = some idx) (hinj : ∀ n, pmap n = some idx → n = th)
    (hnd : ∀ j, (((circ.getD j defaultGate).params.data_.map Prod.fst)).Nodup) :
    ∀ (hgs : List BasicGate) (n : ℕ) (fg out : ℕ → ℂ) (sq sh : DMState),
      noiseWalk P pr pmap dim rho0 circ fg sq sh n hgs = .ok out →
      ∃ c, noiseGradSpecTotal P pr dim th rho0 circ sq sh n hgs = .ok c ∧
        out (1 + idx) = fg (1 + idx) + c := by
  intro hgs
  induction hgs with
  | nil =>
    intro n fg out sq sh hok
    simp only [noiseWalk, Except.ok.injEq] at hok
    refine ⟨0, rfl, ?_⟩
    rw [hok, add_zero]
  | cons hg hgs ih =>
    intro n fg out sq sh hok
    simp only [noiseWalk] at hok
    simp only [noiseGradSpecTotal]
    by_cases hdiff : (circ.getD (n - 1) defaultGate).params.data_.length ≠
        (circ.getD (n - 1) defaultGate).params.no_grad_parameters_.length
    · rw [if_pos hdiff] at hok
      rw [if_pos hdiff]
      cases hev : evolveUpTo P pr circ (n - 1) sq with
      | error e =>
        simp only [hev] at hok
        exact Except.noConfusion hok
      | ok sqe =>
        simp only [hev] at hok
        cases hedg : ExpectDiffGate P sqe.qs sh.qs (circ.getD (n - 1) defaultGate) dim with
        | error e =>
          simp only [hedg] at hok
          exact Except.noConfusion hok
        | ok gi =>
          simp only [hedg] at hok
          cases hacc : gradAccumPos pmap gi (circ.getD (n - 1) defaultGate).params
              (requiresGrad (circ.getD (n - 1) defaultGate).params) fg with
          | error e =>
            simp only [hacc] at hok
            exact Except.noConfusion hok
          | ok fg2 =>
            simp only [hacc] at hok
            cases hsh : ApplyGate P sh hg pr false with
            | error e =>
              simp only [hsh] at hok
              exact Except.noConfusion hok
            | ok shp =>
              obtain ⟨sh2, rr⟩ := shp
              simp only [hsh] at hok
              obtain ⟨c, hspec, hout⟩ := ih (n - 1) fg2 out { sqe with qs := rho0 } sh2 hok
              have hfg2 := gradAccumPos_entry pmap gi (circ.getD (n - 1) defaultGate).params
                th idx hth hinj (requiresGrad (circ.getD (n - 1) defaultGate).params) fg fg2
                ((hnd (n - 1)).filter _) hacc
              refine ⟨(if th ∈ requiresGrad (circ.getD (n - 1) defaultGate).params then
                  ((2 * gi.re * (((circ.getD (n - 1) defaultGate).params.data_.lookup th).getD 0)
                    : ℝ) : ℂ) else 0) + c, ?_, ?_⟩
              · simp only [hev, hedg, hsh, hspec]
              · rw [hout, hfg2]
                ring
    · rw [if_neg hdiff] at hok
      rw [if_neg hdiff]
      cases hsh : ApplyGate P sh hg pr false with
      | error e =>
        simp only [hsh] at hok
        exact Except.noConfusion hok
      | ok shp =>
        obtain ⟨sh2, rr⟩ := shp
        simp only [hsh] at hok
        obtain ⟨c, hspec, hout⟩ := ih (n - 1) fg out sq sh2 hok
        refine ⟨0 + c, ?_, ?_⟩
        · simp only [hspec]
        · rw [hout, zero_add]

/-- C4.  The reversible-mode gradient accumulates each differentiable
parameter's entry as the walk total of `2·Re(gᵢ)·(−coefficient)` (the `-`
sign of line 342), while the noise-mode gradient accumulates the walk total
of `2·Re(gᵢ)·(+coefficient)` (the `+` sign of line 485); the per-parameter
totals are stated by `revGradSpecTotal`/`noiseGradSpecTotal`, which follow
the spec's words. -/
theorem claim_C4_gradient_sign_conventions :
    (∀ {Ham : Type} (P : Policy Ham) (ham : Ham) (circ herm_circ : List BasicGate)
        (enc_data : List (List ℝ)) (ans_data : List ℝ) (enc_name ans_name : List String)
        (self : DMState) (fg : ℕ → ℂ) (m : List (String × ℕ)) (simq : DMState)
        (th : String) (idx : ℕ),
      GetExpectationWithReversibleGradOneOne P ham circ herm_circ enc_data ans_data
          enc_name ans_name self = .ok fg →
      ApplyCircuit P (setItems (setItems (fun _ => 0) enc_name (enc_data.headD []))
          ans_name ans_data) circ (copyState self) = .ok (m, simq) →
      (∀ g ∈ herm_circ, (g.params.data_.map Prod.fst).Nodup) →
      buildPMap enc_name ans_name th = some idx →
      (∀ n, buildPMap enc_name ans_name n = some idx → n = th) →
      revGradSpecTotal P (setItems (setItems (fun _ => 0) enc_name (enc_data.headD []))
          ans_name ans_data) self.dim th simq (hamSidecar P ham self) herm_circ
        = .ok (fg (1 + idx))) ∧
    (∀ {Ham : Type} (P : Policy Ham) (ham : Ham) (circ herm_circ : List BasicGate)
        (pr : String → ℝ) (pmap : String → Option ℕ) (self : DMState)
        (fg : ℕ → ℂ) (m : List (String × ℕ)) (simq : DMState) (th : String) (idx : ℕ),
      GetExpectationWithNoiseGradOneOne P ham circ herm_circ pr pmap self = .ok fg →
      ApplyCircuit P pr circ (copyState self) = .ok (m, simq) →
      (∀ j, (((circ.getD j defaultGate).params.data_.map Prod.fst)).Nodup) →
      pmap th = some idx →
      (∀ n, pmap n = some idx → n = th) →
      noiseGradSpecTotal P pr self.dim th self.qs circ { simq with qs := self.qs }
          (hamSidecar P ham self) circ.length herm_circ = .ok (fg (1 + idx))) := by
  constructor
  · intro Ham P ham circ herm_circ enc_data ans_data enc_name ans_name self fg m simq
      th idx hres happly hnd hth hinj
    simp only [GetExpectationWithReversibleGradOneOne] at hres
    simp only [happly] at hres
    obtain ⟨c, hspec, hout⟩ := revWalk_entry P _ _ self.dim th idx hth hinj herm_circ
      _ fg simq (hamSidecar P ham self) hnd hres
    have h0 : Function.update (fun _ => (0 : ℂ)) 0
        (P.getExpectation simq.qs ham self.dim) (1 + idx) = 0 :=
      Function.update_noteq (by omega) _ _
    rw [h0, zero_add] at hout
    rw [hout]
    exact hspec
  · intro Ham P ham circ herm_circ pr pmap self fg m simq th idx hres happly hnd hth hinj
    simp only [GetExpectationWithNoiseGradOneOne] at hres
    simp only [happly] at hres
    obtain ⟨c, hspec, hout⟩ := noiseWalk_entry P pr pmap self.dim self.qs circ th idx
      hth hinj hnd herm_circ circ.length _ fg { simq with qs := self.qs }
      (hamSidecar P ham self) hres
    have h0 : Function.update (fun _ => (0 : ℂ)) 0
        (P.getExpectation simq.qs ham self.dim) (1 + idx) = 0 :=
      Function.update_noteq (by omega) _ _
    rw [h0, zero_add] at hout
    rw [hout]
    exact hspec

theorem claim_C4_gradient_sign_conventions_witness :
    (GetExpectationWithReversibleGradOneOne trivPolicy () [] [] [[(0 : ℝ)]] [] ["a"] [] st0
        = .ok fgW) ∧
    (buildPMap ["a"] [] "a" = some 0) ∧
    (revGradSpecTotal trivPolicy prW st0.dim "a" (copyState st0)
        (hamSidecar trivPolicy () st0) [] = .ok (fgW (1 + 0))) ∧
    (GetExpectationWithNoiseGradOneOne trivPolicy () [] [] pr0 (buildPMap ["a"] []) st0
        = .ok fgW) ∧
    (noiseGradSpecTotal trivPolicy pr0 st0.dim "a" st0.qs []
        { copyState st0 with qs := st0.qs } (hamSidecar trivPolicy () st0)
        (List.length ([] : List BasicGate)) [] = .ok (fgW (1 + 0))) := by
  have hinj : ∀ n, buildPMap ["a"] [] n = some 0 → n = "a" := by
    intro n h
    by_cases hn : n = "a"
    · exact hn
    · exfalso
      have hb : buildPMap ["a"] [] n = none := by
        show Function.update (fun _ => (none : Option ℕ)) "a" (some 0) n = none
        rw [Function.update_noteq hn]
      rw [hb] at h
      exact Option.noConfusion h
  refine ⟨rfl, rfl, ?_, rfl, ?_⟩
  · exact claim_C4_gradient_sign_conventions.1 trivPolicy () [] [] [[(0 : ℝ)]] [] ["a"] []
      st0 fgW [] (copyState st0) "a" 0 rfl rfl (by simp) rfl hinj
  · exact claim_C4_gradient_sign_conventions.2 trivPolicy () [] [] pr0
      (buildPMap ["a"] []) st0 fgW [] (copyState st0) "a" 0 rfl rfl
      (by intro j; simp [defaultGate]) rfl hinj

theorem getq_cons_succ {α : Type} (a : α) (l : List α) (j : ℕ) :
    (a :: l)[j + 1]? = l[j]? := by
  simp

theorem getq_set_self {α : Type} :
    ∀ (l : List α) (i : ℕ) (x : α), i < l.length → (l.set i x)[i]? = some x := by
  intro l
  induction l with
  | nil =>
    intro i x h
    simp at h
  | cons a l ih =>
    intro i x h
    cases i with
    | zero => simp
    | succ j =>
      show (a :: l.set j x)[j + 1]? = some x
      rw [getq_cons_succ]
      exact ih j x (by simpa using h)

theorem getq_set_ne {α : Type} :
    ∀ (l : List α) (i j : ℕ) (x : α), i ≠ j → (l.set i x)[j]? = l[j]? := by
  intro l
  induction l with
  | nil => intro i j x _; simp
  | cons a l ih =>
    intro i j x hij
    cases i with
    | zero =>
      cases j with
      | zero => exact absurd rfl hij
      | succ k => simp
    | succ i2 =>
      cases j with
      | zero => simp
      | succ k =>
        show (a :: l.set i2 x)[k + 1]? = (a :: l)[k + 1]?
        rw [getq_cons_succ, getq_cons_succ]
        exact ih i2 k x (by omega)

theorem getq_append_left {α : Type} :
    ∀ (l1 l2 : List α) (j : ℕ), j < l1.length → (l1 ++ l2)[j]? = l1[j]? := by
  intro l1
  induction l1 with
  | nil => intro l2 j h; simp at h
  | cons a l1 ih =>
    intro l2 j h
    cases j with
    | zero => simp
    | succ k =>
      show (a :: (l1 ++ l2))[k + 1]? = (a :: l1)[k + 1]?
      rw [getq_cons_succ, getq_cons_succ]
      exact ih l2 k (by simpa using h)

theorem getq_append_right {α : Type} :
    ∀ (l1 l2 : List α) (j : ℕ), (l1 ++ l2)[l1.length + j]? = l2[j]? := by
  intro l1
  induction l1 with
  | nil => intro l2 j; simp
  | cons a l1 ih =>
    intro l2 j
    have harith : (a :: l1).length + j = (l1.length + j) + 1 := by
      simp
      omega
    rw [harith]
    show (a :: (l1 ++ l2))[(l1.length + j) + 1]? = l2[j]?
    rw [getq_cons_succ]
    exact ih l2 j

theorem foldSet_length (res0 : List (String × ℕ)) :
    ∀ (l : List (String × ℕ)) (v : List ℕ),
      (l.foldl (fun v q => v.set q.2 ((res0.lookup q.1).getD 0)) v).length = v.length := by
  intro l
  induction l with
  | nil => intro v; rfl
  | cons q l ih =>
    intro v
    show (l.foldl _ (v.set q.2 _)).length = v.length
    rw [ih]
    exact List.length_set v _ _

theorem foldSet_notin (res0 : List (String × ℕ)) :
    ∀ (l : List (String × ℕ)) (v : List ℕ) (j : ℕ), j ∉ l.map Prod.snd →
      (l.foldl (fun v q => v.set q.2 ((res0.lookup q.1).getD 0)) v)[j]? = v[j]? := by
  intro l
  induction l with
  | nil => intro v j _; rfl
  | cons q l ih =>
    intro v j hj
    show (l.foldl _ (v.set q.2 _))[j]? = v[j]?
    rw [ih _ j (fun hh => hj (List.mem_cons_of_mem _ hh))]
    exact getq_set_ne v q.2 j _ (fun hh => hj (by rw [← hh]; exact List.mem_cons_self _ _))

theorem foldSet_entry (res0 : List (String × ℕ)) :
    ∀ (l : List (String × ℕ)) (v : List ℕ),
      (l.map Prod.snd).Nodup → (∀ p ∈ l, p.2 < v.length) →
      ∀ p ∈ l, (l.foldl (fun v q => v.set q.2 ((res0.lookup q.1).getD 0)) v)[p.2]?
        = some ((res0.lookup p.1).getD 0) := by
  intro l
  induction l with
  | nil => intro v _ _ p hp; exact absurd hp (List.not_mem_nil p)
  | cons q l ih =>
    intro v hnd hlt p hp
    have hnd2 : (l.map Prod.snd).Nodup := by
      rw [List.map_cons] at hnd
      exact (List.nodup_cons.mp hnd).2
    have hq2 : q.2 ∉ l.map Prod.snd := by
      rw [List.map_cons] at hnd
      exact (List.nodup_cons.mp hnd).1
    rcases List.mem_cons.mp hp with hpq | hpl
    · subst hpq
      show (l.foldl _ (v.set p.2 _))[p.2]? = _
      rw [foldSet_notin res0 l _ p.2 hq2]
      exact getq_set_self v p.2 _ (hlt p (List.mem_cons_self _ _))
    · show (l.foldl _ (v.set q.2 _))[p.2]? = _
      refine ih _ hnd2 ?_ p hpl
      intro p' hp'
      rw [List.length_set]
      exact hlt p' (List.mem_cons_of_mem _ hp')

theorem shotResult_ok {Ham : Type} (P : Policy Ham) (pr : String → ℝ)
    (circ : List BasicGate) (key_map : List (String × ℕ)) (selfQs : ℕ → ℂ)
    (nq dim : ℕ) (stream : ℕ → ℝ) (row : List ℕ)
    (hok : shotResult P pr circ key_map selfQs nq dim stream = .ok row) :
    row.length = key_map.length ∧
    ∃ m st, ApplyCircuit P pr circ ⟨selfQs, stream, 0, nq, dim⟩ = .ok (m, st) ∧
      ((key_map.map Prod.snd).Nodup → (∀ p ∈ key_map, p.2 < key_map.length) →
        ∀ p ∈ key_map, row[p.2]? = some ((m.lookup p.1).getD 0)) := by
  simp only [shotResult] at hok
  revert hok
  cases hac : ApplyCircuit P pr circ ⟨selfQs, stream, 0, nq, dim⟩ with
  | error e =>
    intro hok
    exact Except.noConfusion hok
  | ok pres =>
    obtain ⟨m, st⟩ := pres
    intro hok
    simp only [Except.ok.injEq] at hok
    constructor
    · rw [← hok, foldSet_length]
      exact List.length_replicate _ _
    · refine ⟨m, st, rfl, ?_⟩
      intro hnd hlt p hp
      rw [← hok]
      refine foldSet_entry m key_map (List.replicate key_map.length 0) hnd ?_ p hp
      intro p' hp'
      rw [List.length_replicate]
      exact hlt p' hp'

theorem sampleShots_spec {Ham : Type} (P : Policy Ham) (pr : String → ℝ)
    (circ : List BasicGate) (key_map : List (String × ℕ)) (selfQs : ℕ → ℂ)
    (nq dim : ℕ) (shotRng : ℕ → (ℕ → ℝ)) :
    ∀ (todo i : ℕ) (acc res : List ℕ),
      sampleShots P pr circ key_map selfQs nq dim shotRng i todo acc = .ok res →
      res.length = acc.length + todo * key_map.length ∧
      (∀ j, j < acc.length → res[j]? = acc[j]?) ∧
      (∀ s, s < todo →
        ∃ row, shotResult P pr circ key_map selfQs nq dim (shotRng (i + s)) = .ok row ∧
          ∀ k, k < key_map.length →
            res[acc.length + s * key_map.length + k]? = row[k]?) := by
  intro todo
  induction todo with
  | zero =>
    intro i acc res hok
    simp only [sampleShots, Except.ok.injEq] at hok
    subst hok
    refine ⟨by simp, fun j _ => rfl, fun s hs => absurd hs (by omega)⟩
  | succ todo ih =>
    intro i acc res hok
    simp only [sampleShots] at hok
    revert hok
    cases hsr : shotResult P pr circ key_map selfQs nq dim (shotRng i) with
    | error e =>
      intro hok
      exact Except.noConfusion hok
    | ok row =>
      intro hok
      have hrow := (shotResult_ok P pr circ key_map selfQs nq dim (shotRng i) row hsr).1
      obtain ⟨hlen, hpre, hshots⟩ := ih (i + 1) (acc ++ row) res hok
      refine ⟨?_, ?_, ?_⟩
      · rw [hlen, List.length_append, hrow]
        ring
      · intro j hj
        rw [hpre j (by rw [List.length_append]; omega)]
        exact getq_append_left acc row j hj
      · intro s hs
        cases s with
        | zero =>
          refine ⟨row, by rw [Nat.add_zero]; exact hsr, ?_⟩
          intro k hk
          have hidx : acc.length + 0 * key_map.length + k = acc.length + k := by ring
          rw [hidx]
          rw [hpre (acc.length + k) (by rw [List.length_append]; omega)]
          exact getq_append_right acc row k
        | succ s2 =>
          obtain ⟨row', hrow', hrent⟩ := hshots s2 (by omega)
          have hrng : i + 1 + s2 = i + (s2 + 1) := by omega
          rw [hrng] at hrow'
          refine ⟨row', hrow', ?_⟩
          intro k hk
          have hidx : acc.length + (s2 + 1) * key_map.length + k
              = (acc ++ row).length + s2 * key_map.length + k := by
            rw [List.length_append, hrow]
            ring
          rw [hidx]
          exact hrent k hk

/-- C9.  `Sampling` returns a flat vector of `shots × |key_map|` outcomes in
which entry `s·|key_map| + key_map[name]` holds the outcome that shot `s`'s
circuit run recorded under `name`; every shot runs `ApplyCircuit` on a fresh
state whose buffer is a copy of `this->qs`, and the parent state is returned
unchanged. -/
theorem claim_C9_sampling_layout :
    ∀ {Ham : Type} (P : Policy Ham) (self : DMState) (circ : List BasicGate)
      (pr : String → ℝ) (shots : ℕ) (key_map : List (String × ℕ))
      (shotRng : ℕ → (ℕ → ℝ)) (res : List ℕ) (selfOut : DMState),
      Sampling P self circ pr shots key_map shotRng = .ok (res, selfOut) →
      selfOut = self ∧
      res.length = shots * key_map.length ∧
      ((key_map.map Prod.snd).Nodup → (∀ p ∈ key_map, p.2 < key_map.length) →
        ∀ s, s < shots → ∀ p ∈ key_map,
          ∃ m st,
            ApplyCircuit P pr circ ⟨self.qs, shotRng s, 0, self.n_qubits, self.dim⟩
              = .ok (m, st) ∧
            res[s * key_map.length + p.2]? = some ((m.lookup p.1).getD 0)) := by
  intro Ham P self circ pr shots key_map shotRng res selfOut hok
  simp only [Sampling] at hok
  revert hok
  cases hss : sampleShots P pr circ key_map self.qs self.n_qubits self.dim shotRng 0 shots []
  case error e =>
    intro hok
    exact Except.noConfusion hok
  case ok res0 =>
    intro hok
    simp only [Except.ok.injEq, Prod.mk.injEq] at hok
    obtain ⟨hres, hself⟩ := hok
    subst hres
    obtain ⟨hlen, _, hshots⟩ := sampleShots_spec P pr circ key_map self.qs self.n_qubits
      self.dim shotRng shots 0 [] res0 hss
    refine ⟨hself.symm, by simpa using hlen, ?_⟩
    intro hnd hlt s hs p hp
    obtain ⟨row, hrow, hrent⟩ := hshots s hs
    rw [Nat.zero_add] at hrow
    obtain ⟨hrlen, m, st, hac, hent⟩ := shotResult_ok P pr circ key_map self.qs
      self.n_qubits self.dim (shotRng s) row hrow
    refine ⟨m, st, hac, ?_⟩
    have hp2 : p.2 < key_map.length := hlt p hp
    have := hrent p.2 hp2
    simp only [List.length_nil, Nat.zero_add] at this
    rw [this]
    exact hent hnd hlt p hp

theorem claim_C9_sampling_layout_witness :
    (Sampling trivPolicy st0 [] pr0 0 [("k", 0)] (fun _ => fun _ => 0)
      = .ok ([], st0)) ∧
    (st0 = st0 ∧
      ([] : List ℕ).length = 0 * [("k", 0)].length ∧
      ((([("k", 0)].map Prod.snd).Nodup) → (∀ p ∈ [("k", 0)], p.2 < [("k", 0)].length) →
        ∀ s, s < 0 → ∀ p ∈ [("k", 0)],
          ∃ m st,
            ApplyCircuit trivPolicy pr0 []
              ⟨st0.qs, (fun _ => fun _ => (0 : ℝ)) s, 0, st0.n_qubits, st0.dim⟩
              = .ok (m, st) ∧
            ([] : List ℕ)[s * [("k", 0)].length + p.2]? = some ((m.lookup p.1).getD 0))) :=
  ⟨rfl, claim_C9_sampling_layout trivPolicy st0 [] pr0 0 [("k", 0)]
    (fun _ => fun _ => 0) [] st0 rfl⟩

end DMSim
